import Mathlib

/-!
# Verification of the Lit-Review-Dashboard data pipeline

Shallow embedding of the data-transformation pipeline of the
Lit-Review-Dashboard repository (CSV parsing, validation, text
classification, author-network analysis and research-gap analysis),
together with theorems settling the specification claims.

Modelling conventions:
* JavaScript strings are modelled as `List Char` (abbreviated `Str`);
  the inputs of interest are ASCII, and the ASCII fragments of
  `trim` / `toLowerCase` / `\s` / `\w` are modelled.
* JavaScript numbers are modelled as exact rationals `ℚ`
  (IEEE-754 rounding is not modelled); the NaN-producing quality-metric
  divisions use the dedicated `JsNum` type which carries NaN/±Infinity.
* Host APIs that are not repository code (`new Date().getFullYear()`,
  the WHATWG `new URL` parser) are explicit parameters of the embedded
  functions.
-/

/-- JavaScript strings, modelled as lists of characters. -/
abbrev Str := List Char

/-- Abbreviation turning a Lean string literal into the `Str` model. -/
def str (s : String) : Str := s.toList

/-- The characters treated as whitespace by JS `trim` and `\s`
(ASCII fragment). -/
def isSpaceJS (c : Char) : Bool :=
  c = ' ' || c = '\t' || c = '\n' || c = '\r' || c = '\x0b' || c = '\x0c'

/-- JS `String.prototype.trim` (ASCII fragment). -/
def trimStr (l : Str) : Str :=
  ((l.dropWhile isSpaceJS).reverse.dropWhile isSpaceJS).reverse

/-- JS `String.prototype.toLowerCase` (ASCII fragment). -/
def toLowerStr (l : Str) : Str := l.map Char.toLower

/-- Truthiness-based JS `a || b` on strings (`''` is falsy). -/
def jsOr (a b : Str) : Str := if a = [] then b else a

/-- `List.dropWhile` does not lengthen a list (used for termination). -/
theorem dropWhile_length_le (p : Char → Bool) (l : Str) :
    (l.dropWhile p).length ≤ l.length := by
  induction l with
  | nil => simp [List.dropWhile]
  | cons c rest ih =>
    by_cases h : p c
    · simp only [List.dropWhile, h]
      exact Nat.le_succ_of_le ih
    · simp [List.dropWhile, h]

/-- Worker for `splitOnPred` (JS `split` on a one-character-class regex). -/
def splitOnPredAux (p : Char → Bool) : Str → Str → List Str
  | [], acc => [acc.reverse]
  | c :: rest, acc =>
    if p c then acc.reverse :: splitOnPredAux p rest []
    else splitOnPredAux p rest (c :: acc)

/-- JS `String.prototype.split` against a single-character-class regex
such as `/[;,]/`; empty pieces are kept, as in JS. -/
def splitOnPred (p : Char → Bool) (l : Str) : List Str :=
  splitOnPredAux p l []

/-- JS `String.prototype.split(sep)` with a one-character separator. -/
def splitOnChar (sep : Char) (l : Str) : List Str :=
  splitOnPred (fun c => c = sep) l

/-- Boolean list-prefix test (JS `startsWith`). -/
def isPrefixB : Str → Str → Bool
  | [], _ => true
  | _ :: _, [] => false
  | a :: as, b :: bs => a = b && isPrefixB as bs

/-- Boolean substring test (JS `String.prototype.includes`). -/
def isInfixB (n : Str) : Str → Bool
  | [] => n.isEmpty
  | c :: rest => isPrefixB n (c :: rest) || isInfixB n rest

/-- Boolean list-suffix test (JS `endsWith`). -/
def isSuffixB (n l : Str) : Bool := isPrefixB n.reverse l.reverse

/-- JS `\w` word character, i.e. `[A-Za-z0-9_]`. -/
def isWordCharJS (c : Char) : Bool :=
  ('a' ≤ c && c ≤ 'z') || ('A' ≤ c && c ≤ 'Z') || ('0' ≤ c && c ≤ '9') || c = '_'

/-- Drop the empty pieces that arise between adjacent separator
characters inside a run, keeping a trailing empty piece. -/
def dropInnerEmpties : List Str → List Str
  | [] => []
  | [x] => [x]
  | x :: y :: r =>
    if x = [] then dropInnerEmpties (y :: r) else x :: dropInnerEmpties (y :: r)

/-- JS `String.prototype.split(/\s+/)`: pieces are the maximal runs of
non-whitespace characters, plus an empty leading piece when the string
starts with whitespace and an empty trailing piece when it ends with
whitespace.  Derived from the single-character split by dropping the
empty pieces produced inside a whitespace run. -/
def splitWS (l : Str) : List Str :=
  match splitOnPred isSpaceJS l with
  | [] => []
  | x :: rest => x :: dropInnerEmpties rest

/-- The record model of `PaperRecord` from `src/types/index.ts`.
`doi`/`url` are optional strings in TS; since every parser writes a
string (possibly empty) into them and all consumers test them for
truthiness, they are modelled as `Str` with `[]` for absent. -/
structure PaperRecord where
  key : Str
  itemType : Str
  publicationYear : Option Nat
  authors : List Str
  title : Str
  publicationTitle : Str
  doi : Str
  url : Str
  abstract : Str
  tags : List Str
  venue : Str
deriving Repr, DecidableEq

/-! ## `src/src/data/csvParser.ts` (the module imported by the test suite) -/

/-- The honorific prefixes stripped by `cleanAuthorName`
(`/^(Dr\.|Prof\.|Mr\.|Ms\.|Mrs\.)\s*/i`), in alternation order. -/
def honorifics : List Str :=
  [str "dr.", str "prof.", str "mr.", str "ms.", str "mrs."]

/-- Strip a leading honorific together with the following whitespace. -/
def stripHonorific (name : Str) : Str :=
  match honorifics.find? (fun p => isPrefixB p (toLowerStr name)) with
  | some p => (name.drop p.length).dropWhile isSpaceJS
  | none => name

/-- The generational suffixes stripped by `cleanAuthorName`
(`/\s*(Jr\.|Sr\.|III|IV)\.?$/i`), in alternation order. -/
def genSuffixes : List Str :=
  [str "jr.", str "sr.", str "iii", str "iv"]

/-- Strip a trailing generational suffix (with an optional extra dot)
together with the whitespace run preceding it. -/
def stripGenSuffix (name : Str) : Str :=
  match genSuffixes.findSome? (fun s =>
      if isSuffixB (s ++ ['.']) (toLowerStr name) then some (s.length + 1)
      else if isSuffixB s (toLowerStr name) then some s.length
      else none) with
  | some n => ((name.take (name.length - n)).reverse.dropWhile isSpaceJS).reverse
  | none => name

namespace CsvA

/-- Worker for `parseCSVLine`: the quote-toggling field scanner of
`src/src/data/csvParser.ts`.  Quote characters toggle `inQuotes` and are
never emitted; an unquoted comma ends the current field. -/
def parseCSVLineAux : Str → Bool → Str → List Str
  | [], _, current => [trimStr current.reverse]
  | c :: rest, inQuotes, current =>
    if c = '"' then parseCSVLineAux rest (!inQuotes) current
    else if c = ',' && !inQuotes then
      trimStr current.reverse :: parseCSVLineAux rest inQuotes []
    else parseCSVLineAux rest inQuotes (c :: current)

/-- `parseCSVLine` from `src/src/data/csvParser.ts` (lines 35-55). -/
def parseCSVLine (line : Str) : List Str := parseCSVLineAux line false []

/-- The `fieldMappings` table of `createPaperRecord`. -/
def fieldMappings : List (Str × List Str) :=
  [ (str "title", [str "Title"]),
    (str "author", [str "Author"]),
    (str "year", [str "Publication Year"]),
    (str "abstract", [str "Abstract Note"]),
    (str "doi", [str "DOI"]),
    (str "url", [str "Url"]),
    (str "type", [str "Item Type"]),
    (str "venue", [str "Publication Title"]),
    (str "key", [str "Key"]),
    (str "tags", [str "Manual Tags", str "Automatic Tags"]) ]

/-- `fieldMappings[fieldName.toLowerCase()] || [fieldName]`. -/
def possibleFieldsFor (fieldName : Str) : List Str :=
  match fieldMappings.lookup (toLowerStr fieldName) with
  | some fs => fs
  | none => [fieldName]

/-- `cleanField`: strip one leading and one trailing double quote
(`replace(/^"|"$/g, '')`), then trim. -/
def cleanField (field : Str) : Str :=
  let f1 := match field with
    | '"' :: rest => rest
    | l => l
  let f2 := match f1.reverse with
    | '"' :: rest => rest.reverse
    | _ => f1
  trimStr f2

/-- The candidate-header loop inside `getField`: the first header that
case-insensitively equals or contains the candidate name wins, provided
the corresponding field is present and non-blank; otherwise the next
candidate is tried. -/
def getFieldGo (headers fields : List Str) : List Str → Str
  | [] => []
  | pf :: rest =>
    match headers.findIdx? (fun h =>
        toLowerStr h == toLowerStr pf || isInfixB (toLowerStr pf) (toLowerStr h)) with
    | some index =>
      if trimStr (fields.getD index []) ≠ [] then cleanField (fields.getD index [])
      else getFieldGo headers fields rest
    | none => getFieldGo headers fields rest

/-- `getField` from `createPaperRecord` in `src/src/data/csvParser.ts`. -/
def getField (headers fields : List Str) (fieldName : Str) : Str :=
  getFieldGo headers fields (possibleFieldsFor fieldName)

/-- Attempt to read the leading `(19|20)\d{2}\b` year token at the head
of the list (the preceding `\b` is checked by the caller). -/
def yearDigits : Str → Option Nat
  | c1 :: c2 :: c3 :: c4 :: rest =>
    let boundaryAfter := match rest with
      | [] => true
      | r :: _ => !isWordCharJS r
    if ((c1 = '1' && c2 = '9') || (c1 = '2' && c2 = '0')) && c3.isDigit && c4.isDigit
        && boundaryAfter then
      some ((c1.toNat - 48) * 1000 + (c2.toNat - 48) * 100 +
            (c3.toNat - 48) * 10 + (c4.toNat - 48))
    else none
  | _ => none

/-- Leftmost match of `/\b(19|20)\d{2}\b/`, scanning with a flag that
records whether the previous character was a word character. -/
def findYearTokenAux : Bool → Str → Option Nat
  | _, [] => none
  | prevWord, c :: rest =>
    match (if prevWord then none else yearDigits (c :: rest)) with
    | some y => some y
    | none => findYearTokenAux (isWordCharJS c) rest

/-- `parseYear` from `src/src/data/csvParser.ts` (lines 140-154): extract
the first boundary-matched 4-digit year token and keep it only inside
the configured 1990-2025 range. -/
def parseYear (yearStr : Str) : Option Nat :=
  if yearStr = [] then none
  else
    match findYearTokenAux false yearStr with
    | some year => if 1990 ≤ year ∧ year ≤ 2025 then some year else none
    | none => none

/-- Fuel-indexed worker for JS `split(/[;,&]|and\s+/)` as used by
`parseAuthors`: the separators are the single characters `;`/`,`/`&`, or
the word `and` followed by a maximal whitespace run.  Every step consumes
at least one character, so running with fuel equal to the string length
(`splitAuthors`) never reaches the fuel-exhaustion fallback. -/
def splitAuthorsAux : Nat → Str → Str → List Str
  | 0, l, acc => [acc.reverse ++ l]
  | _ + 1, [], acc => [acc.reverse]
  | fuel + 1, 'a' :: 'n' :: 'd' :: w :: r3, acc =>
    if isSpaceJS w then acc.reverse :: splitAuthorsAux fuel (r3.dropWhile isSpaceJS) []
    else splitAuthorsAux fuel ('n' :: 'd' :: w :: r3) ('a' :: acc)
  | fuel + 1, c :: rest, acc =>
    if c = ';' || c = ',' || c = '&' then acc.reverse :: splitAuthorsAux fuel rest []
    else splitAuthorsAux fuel rest (c :: acc)

/-- JS `authorsStr.split(/[;,&]|and\s+/)`. -/
def splitAuthors (l : Str) : List Str := splitAuthorsAux l.length l []

/-- `cleanAuthorName` from `src/src/data/csvParser.ts` (lines 175-181):
strip honorific prefix and generational suffix, then trim. -/
def cleanAuthorName (name : Str) : Str :=
  trimStr (stripGenSuffix (stripHonorific name))

/-- `parseAuthors` from `src/src/data/csvParser.ts` (lines 159-170). -/
def parseAuthors (authorsStr : Str) : List Str :=
  if authorsStr = [] then []
  else
    ((((splitAuthors authorsStr).map trimStr).filter
        (fun a => 0 < a.length)).map cleanAuthorName)

/-- `parseTags` from `src/src/data/csvParser.ts` (lines 186-193). -/
def parseTags (tagsStr : Str) : List Str :=
  if tagsStr = [] then []
  else
    ((splitOnPred (fun c => c = ';' || c = ',') tagsStr).map trimStr).filter
      (fun t => 0 < t.length)

/-- `generateKey` from `src/src/data/csvParser.ts` (lines 198-202). -/
def generateKey (title firstAuthor : Str) : Str :=
  let titleWords := (splitWS (toLowerStr title)).take 3
  let authorLastName :=
    if firstAuthor = [] then [] else (splitOnChar ' ' firstAuthor).getLastD []
  toLowerStr authorLastName ++ '_' :: List.intercalate ['_'] titleWords

/-- `createPaperRecord` from `src/src/data/csvParser.ts` (lines 60-128).
No operation in the body can throw, so the `try/catch` collapses to the
`null`-on-missing-title check. -/
def createPaperRecord (headers fields : List Str) : Option PaperRecord :=
  let getF := getField headers fields
  let title := getF (str "title")
  if title = [] then none
  else
    let yearStr := jsOr (getF (str "year")) (getF (str "date"))
    let publicationYear := parseYear yearStr
    let authorsStr := jsOr (getF (str "author")) (getF (str "authors"))
    let authors := parseAuthors authorsStr
    let manualTags := getF (str "Manual Tags")
    let autoTags := getF (str "Automatic Tags")
    let combinedTagsStr :=
      List.intercalate (str "; ") (([manualTags, autoTags]).filter (fun t => t ≠ []))
    let tags := parseTags combinedTagsStr
    some {
      key := jsOr (getF (str "key")) (generateKey title (authors.getD 0 [])),
      itemType := jsOr (jsOr (getF (str "type")) (getF (str "itemtype"))) (str "article"),
      publicationYear := publicationYear,
      authors := authors,
      title := title,
      publicationTitle :=
        jsOr (jsOr (jsOr (getF (str "publication")) (getF (str "journal")))
          (getF (str "booktitle"))) [],
      doi := getF (str "doi"),
      url := getF (str "url"),
      abstract := jsOr (getF (str "abstract")) [],
      tags := tags,
      venue := jsOr (jsOr (jsOr (getF (str "venue")) (getF (str "publication")))
        (getF (str "journal"))) [] }

/-- The header computation of `parseCSV`: a plain comma split of the
first line, each header trimmed and stripped of every double quote. -/
def headersOf (headerLine : Str) : List Str :=
  (splitOnChar ',' headerLine).map (fun h => (trimStr h).filter (fun c => c ≠ '"'))

/-- `parseCSV` from `src/src/data/csvParser.ts` (lines 9-30): split the
content into lines, derive headers from the first line, then parse each
later non-blank line, skipping lines with fewer fields than headers and
records without a title. -/
def parseCSV (csvContent : Str) : List PaperRecord :=
  let lines := splitOnChar '\n' csvContent
  let headers := headersOf (lines.headD [])
  (lines.drop 1).filterMap (fun l =>
    let line := trimStr l
    if line = [] then none
    else
      let fields := parseCSVLine line
      if fields.length < headers.length then none
      else createPaperRecord headers fields)

end CsvA

/-! ## Split/join infrastructure lemmas -/

/-- JS `Array.prototype.join(sep)`. -/
def joinWith (sep : Str) : List Str → Str
  | [] => []
  | [x] => x
  | x :: y :: rest => x ++ sep ++ joinWith sep (y :: rest)

theorem splitOnPredAux_no_sep (p : Char → Bool) (l : Str)
    (h : ∀ c ∈ l, p c = false) (acc : Str) :
    splitOnPredAux p l acc = [acc.reverse ++ l] := by
  induction l generalizing acc with
  | nil => simp [splitOnPredAux]
  | cons c rest ih =>
    have hc : p c = false := h c (by simp)
    simp only [splitOnPredAux, hc, Bool.false_eq_true, if_false,
      ih (fun d hd => h d (by simp [hd]))]
    simp

theorem splitOnPredAux_sep (p : Char → Bool) (sep : Char) (hsep : p sep = true)
    (l : Str) (h : ∀ c ∈ l, p c = false) (rest acc : Str) :
    splitOnPredAux p (l ++ sep :: rest) acc =
      (acc.reverse ++ l) :: splitOnPredAux p rest [] := by
  induction l generalizing acc with
  | nil => simp [splitOnPredAux, hsep]
  | cons c l2 ih =>
    have hc : p c = false := h c (by simp)
    have ih2 := ih (fun d hd => h d (by simp [hd])) (c :: acc)
    simp only [List.cons_append, splitOnPredAux, hc, Bool.false_eq_true, if_false,
      List.append_eq]
    rw [ih2]
    simp

/-- Splitting on a separator character is a left inverse of joining with
it, provided no piece contains the separator. -/
theorem splitOnChar_joinWith (sep : Char) :
    ∀ ls : List Str, ls ≠ [] → (∀ x ∈ ls, ∀ c ∈ x, c ≠ sep) →
      splitOnChar sep (joinWith [sep] ls) = ls
  | [], h, _ => absurd rfl h
  | [x], _, hfree => by
    have : ∀ c ∈ x, (fun c => decide (c = sep)) c = false := by
      intro c hc
      simpa using hfree x (by simp) c hc
    simp [splitOnChar, splitOnPred, joinWith, splitOnPredAux_no_sep _ x this]
  | x :: y :: rest, _, hfree => by
    have hx : ∀ c ∈ x, (fun c => decide (c = sep)) c = false := by
      intro c hc
      simpa using hfree x (by simp) c hc
    have htail := splitOnChar_joinWith sep (y :: rest) (by simp)
      (fun z hz c hc => hfree z (by simp [hz]) c hc)
    have harr : joinWith [sep] (x :: y :: rest) =
        x ++ sep :: joinWith [sep] (y :: rest) := by
      simp [joinWith]
    rw [splitOnChar, splitOnPred] at htail ⊢
    rw [harr, splitOnPredAux_sep _ sep (by simp) x hx, htail]
    simp

/-- A `filterMap` whose function succeeds on every element preserves
length. -/
theorem length_filterMap_of_isSome {α β : Type} (f : α → Option β) :
    ∀ l : List α, (∀ x ∈ l, (f x).isSome) → (l.filterMap f).length = l.length
  | [], _ => rfl
  | x :: rest, h => by
    obtain ⟨b, hb⟩ := Option.isSome_iff_exists.mp (h x (by simp))
    simp [List.filterMap_cons, hb,
      length_filterMap_of_isSome f rest (fun y hy => h y (by simp [hy]))]

/-! ## Claim C1 -/

/-- The `sampleCSVData` fixture from `src/src/tests/dataProcessing.test.ts`. -/
def sampleCSVData : Str := str "Title,Author,Publication Year,Abstract,DOI,URL,Item Type,Venue\n\"Test Paper 1\",\"John Doe; Jane Smith\",2023,\"This is a test abstract about security and economics\",\"10.1000/test1\",\"http://example.com\",\"article\",\"Test Journal\"\n\"Test Paper 2\",\"Alice Johnson\",2022,\"Another abstract discussing game theory\",\"10.1000/test2\",\"http://example.com\",\"inproceedings\",\"Test Conference\""

set_option maxRecDepth 20000 in
/-- C1: for every CSV input consisting of a header line and data rows in
which every row is non-blank, has at least as many fields as the header,
and resolves a non-empty title, `CsvA.parseCSV` returns exactly one
record per data row; and on the repository's own 2-row test fixture it
returns exactly 2 records, the first titled `Test Paper 1` with 2
authors. -/
theorem c1_parseCSV_returns_all_valid_rows :
    (∀ (headerLine : Str) (dataLines : List Str),
      (∀ c ∈ headerLine, c ≠ '\n') →
      (∀ l ∈ dataLines, ∀ c ∈ l, c ≠ '\n') →
      (∀ l ∈ dataLines, trimStr l ≠ [] ∧
        (CsvA.headersOf headerLine).length ≤ (CsvA.parseCSVLine (trimStr l)).length ∧
        CsvA.getField (CsvA.headersOf headerLine) (CsvA.parseCSVLine (trimStr l))
          (str "title") ≠ []) →
      (CsvA.parseCSV (joinWith ['\n'] (headerLine :: dataLines))).length
        = dataLines.length) ∧
    (CsvA.parseCSV sampleCSVData).length = 2 ∧
    (CsvA.parseCSV sampleCSVData).map (fun p => (p.title, p.authors.length)) =
      [(str "Test Paper 1", 2), (str "Test Paper 2", 1)] := by
  refine ⟨?_, by decide, by decide⟩
  intro headerLine dataLines hhd hfree hrows
  have hsplit : splitOnChar '\n' (joinWith ['\n'] (headerLine :: dataLines))
      = headerLine :: dataLines := by
    apply splitOnChar_joinWith
    · simp
    · intro x hx c hc
      rcases List.mem_cons.mp hx with h | h
      · exact hhd c (h ▸ hc)
      · exact hfree x h c hc
  rw [CsvA.parseCSV]
  simp only [hsplit, List.headD_cons, List.drop_succ_cons, List.drop_zero]
  apply length_filterMap_of_isSome
  intro l hl
  obtain ⟨hblank, hlen, htitle⟩ := hrows l hl
  simp only [hblank, if_false, Nat.not_lt.mpr hlen, if_neg (Nat.not_lt.mpr hlen)]
  rw [CsvA.createPaperRecord]
  simp [htitle]

/-- The header line of the test fixture. -/
def sampleHeaderLine : Str :=
  str "Title,Author,Publication Year,Abstract,DOI,URL,Item Type,Venue"

/-- The two data rows of the test fixture. -/
def sampleDataLines : List Str :=
  [str "\"Test Paper 1\",\"John Doe; Jane Smith\",2023,\"This is a test abstract about security and economics\",\"10.1000/test1\",\"http://example.com\",\"article\",\"Test Journal\"",
   str "\"Test Paper 2\",\"Alice Johnson\",2022,\"Another abstract discussing game theory\",\"10.1000/test2\",\"http://example.com\",\"inproceedings\",\"Test Conference\""]

set_option maxRecDepth 20000 in
/-- Witness for C1: the universally quantified part applied to the
repository's own 2-row fixture. -/
theorem c1_parseCSV_returns_all_valid_rows_witness :
    sampleDataLines.length = 2 ∧
    (CsvA.parseCSV (joinWith ['\n'] (sampleHeaderLine :: sampleDataLines))).length
      = sampleDataLines.length :=
  ⟨by decide,
   c1_parseCSV_returns_all_valid_rows.1 sampleHeaderLine sampleDataLines
     (by decide) (by decide) (by decide)⟩

/-! ## Claim C5 -/

/-- Scan every position of the string for a boundary-matched
`(19|20)\d{2}` token whose value lies in the configured 1990-2025 range
(claim-side characterisation: `parseYear` itself stops at the first
boundary-matched token, in or out of range). -/
def hasYearTokenInRangeAux : Bool → Str → Bool
  | _, [] => false
  | prevWord, c :: rest =>
    (match (if prevWord then none else CsvA.yearDigits (c :: rest)) with
     | some y => decide (1990 ≤ y ∧ y ≤ 2025)
     | none => false)
    || hasYearTokenInRangeAux (isWordCharJS c) rest

/-- The string contains some boundary-matched 4-digit token in 1990-2025. -/
def hasYearTokenInRange (l : Str) : Bool := hasYearTokenInRangeAux false l

theorem hasYearTokenInRangeAux_of_find (prev : Bool) :
    ∀ l : Str, ∀ y, CsvA.findYearTokenAux prev l = some y →
      1990 ≤ y → y ≤ 2025 → hasYearTokenInRangeAux prev l = true := by
  intro l
  induction l generalizing prev with
  | nil => intro y h; simp [CsvA.findYearTokenAux] at h
  | cons c rest ih =>
    intro y hfind h1 h2
    rw [CsvA.findYearTokenAux] at hfind
    rw [hasYearTokenInRangeAux]
    cases hyd : (if prev then none else CsvA.yearDigits (c :: rest)) with
    | some y2 =>
      rw [hyd] at hfind
      simp only at hfind
      cases hfind
      simp [hyd, h1, h2]
    | none =>
      rw [hyd] at hfind
      simp only at hfind
      simp [hyd, ih (isWordCharJS c) y hfind h1 h2]

theorem find_out_of_range_of_not_has (prev : Bool) :
    ∀ l : Str, hasYearTokenInRangeAux prev l = false →
      ∀ y, CsvA.findYearTokenAux prev l = some y → ¬(1990 ≤ y ∧ y ≤ 2025) := by
  intro l
  induction l generalizing prev with
  | nil => intro _ y h; simp [CsvA.findYearTokenAux] at h
  | cons c rest ih =>
    intro hhas y hfind
    rw [hasYearTokenInRangeAux] at hhas
    rw [CsvA.findYearTokenAux] at hfind
    cases hyd : (if prev then none else CsvA.yearDigits (c :: rest)) with
    | some y2 =>
      rw [hyd] at hhas hfind
      simp only at hfind
      cases hfind
      simp only [Bool.or_eq_false_iff] at hhas
      simpa using hhas.1
    | none =>
      rw [hyd] at hhas hfind
      simp only at hfind
      simp only [Bool.or_eq_false_iff] at hhas
      exact ih (isWordCharJS c) hhas.2 y hfind

/-- C5: `parseYear` returns a year only when the string contains a
boundary-matched 4-digit token inside the configured 1990-2025 range,
and returns `none` whenever no such token is present (it is a total
function, so it never throws); in particular the string `1899` yields
`none` rather than a clamped or raw value. -/
theorem c5_parseYear_range :
    (∀ (s : Str) (y : Nat), CsvA.parseYear s = some y →
      1990 ≤ y ∧ y ≤ 2025 ∧ hasYearTokenInRange s = true) ∧
    (∀ s : Str, hasYearTokenInRange s = false → CsvA.parseYear s = none) ∧
    CsvA.parseYear (str "1899") = none ∧
    CsvA.parseYear (str "around 1899!") = none := by
  refine ⟨?_, ?_, by decide, by decide⟩
  · intro s y h
    rw [CsvA.parseYear] at h
    by_cases hs : s = []
    · simp [hs] at h
    · rw [if_neg hs] at h
      cases hfind : CsvA.findYearTokenAux false s with
      | none => rw [hfind] at h; exact absurd h (by simp)
      | some year =>
        rw [hfind] at h
        simp only at h
        by_cases hr : 1990 ≤ year ∧ year ≤ 2025
        · rw [if_pos hr] at h
          cases h
          exact ⟨hr.1, hr.2, hasYearTokenInRangeAux_of_find false s y hfind hr.1 hr.2⟩
        · rw [if_neg hr] at h
          exact absurd h (by simp)
  · intro s hhas
    rw [CsvA.parseYear]
    by_cases hs : s = []
    · simp [hs]
    · rw [if_neg hs]
      cases hfind : CsvA.findYearTokenAux false s with
      | none => rfl
      | some year =>
        have hout := find_out_of_range_of_not_has false s hhas year hfind
        simp only
        rw [if_neg hout]

/-- Witness for C5: the implications applied at concrete inputs. -/
theorem c5_parseYear_range_witness :
    CsvA.parseYear (str "July 2003") = some 2003 ∧
    (1990 ≤ 2003 ∧ 2003 ≤ 2025 ∧ hasYearTokenInRange (str "July 2003") = true) ∧
    hasYearTokenInRange (str "no year here 1899") = false ∧
    CsvA.parseYear (str "no year here 1899") = none :=
  ⟨by decide, c5_parseYear_range.1 (str "July 2003") 2003 (by decide), by decide,
   c5_parseYear_range.2.1 (str "no year here 1899") (by decide)⟩

/-! ## `src/unnamed/part_004` csvParser module (the enhanced parser used
by the data loader) -/

namespace CsvB

/-- `parseCSVLine` worker from the enhanced csvParser in
`src/unnamed/part_004` (lines 69-101): a doubled double quote is decoded
as one literal quote character (without toggling the quote state), a
single double quote toggles the quote state, and a comma outside quotes
ends the field. -/
def parseCSVLineAux : Str → Bool → Str → List Str
  | [], _, current => [trimStr current.reverse]
  | '"' :: '"' :: rest, inQuotes, current => parseCSVLineAux rest inQuotes ('"' :: current)
  | '"' :: rest, inQuotes, current => parseCSVLineAux rest (!inQuotes) current
  | c :: rest, inQuotes, current =>
    if c = ',' && !inQuotes then trimStr current.reverse :: parseCSVLineAux rest false []
    else parseCSVLineAux rest inQuotes (c :: current)

/-- `parseCSVLine` from `src/unnamed/part_004` (lines 69-101). -/
def parseCSVLine (line : Str) : List Str := parseCSVLineAux line false []

theorem parseCSVLineAux_quote_quote (rest : Str) (inQ : Bool) (cur : Str) :
    parseCSVLineAux ('"' :: '"' :: rest) inQ cur = parseCSVLineAux rest inQ ('"' :: cur) :=
  rfl

theorem parseCSVLineAux_quote_other (c : Char) (hc : c ≠ '"') (rest : Str)
    (inQ : Bool) (cur : Str) :
    parseCSVLineAux ('"' :: c :: rest) inQ cur = parseCSVLineAux (c :: rest) (!inQ) cur := by
  simp [parseCSVLineAux, hc]

theorem parseCSVLineAux_char (c : Char) (hc : c ≠ '"') (rest : Str) (cur : Str) :
    parseCSVLineAux (c :: rest) true cur = parseCSVLineAux rest true (c :: cur) := by
  simp [parseCSVLineAux, hc]

end CsvB

/-- The standard CSV writer escape: double every double quote
(claim-side definition for the round-trip statement). -/
def escQuotes : Str → Str
  | [] => []
  | c :: rest => if c = '"' then '"' :: '"' :: escQuotes rest else c :: escQuotes rest

/-- The standard CSV writer for a row: wrap every field in double quotes
with inner quotes doubled, and join the fields with commas (claim-side
definition for the round-trip statement). -/
def encodeFields : List Str → Str
  | [] => []
  | [f] => '"' :: (escQuotes f ++ ['"'])
  | f :: g :: rest => '"' :: (escQuotes f ++ ['"']) ++ ',' :: encodeFields (g :: rest)

/-- Consuming an escaped field body inside quotes accumulates exactly the
original field characters. -/
theorem parseCSVLineAux_escaped (f : Str) :
    ∀ (rest cur : Str),
      CsvB.parseCSVLineAux (escQuotes f ++ '"' :: rest) true cur
        = CsvB.parseCSVLineAux ('"' :: rest) true (f.reverse ++ cur) := by
  induction f with
  | nil => intro rest cur; simp [escQuotes]
  | cons c f2 ih =>
    intro rest cur
    by_cases hc : c = '"'
    · subst hc
      have he : escQuotes ('"' :: f2) = '"' :: '"' :: escQuotes f2 := by
        simp [escQuotes]
      rw [he, List.cons_append, List.cons_append, CsvB.parseCSVLineAux_quote_quote, ih]
      simp
    · have he : escQuotes (c :: f2) = c :: escQuotes f2 := by
        simp [escQuotes, hc]
      rw [he, List.cons_append, CsvB.parseCSVLineAux_char c hc, ih]
      simp

/-! ## Claim C3 -/

set_option maxRecDepth 10000 in
/-- C3: the enhanced line parser decodes a standard quoted CSV row
exactly: commas inside double-quoted fields stay part of the field
value, and a doubled double quote inside a quoted field decodes to one
literal double-quote character.  Stated as a round trip against the
standard CSV writer (`encodeFields`), for fields that are non-empty and
do not start with a quote character, plus a concrete instance. -/
theorem c3_parseCSVLine_quoted_roundtrip :
    (∀ fields : List Str, fields ≠ [] →
        (∀ f ∈ fields, f ≠ [] ∧ f.head? ≠ some '"') →
        CsvB.parseCSVLine (encodeFields fields) = fields.map trimStr) ∧
    CsvB.parseCSVLine (str "\"a,b\",\"x\"\"y\"") = [str "a,b", str "x\"y"] := by
  refine ⟨?_, by decide⟩
  intro fields
  induction fields with
  | nil => intro h _; exact absurd rfl h
  | cons f rest ih =>
    intro _ hok
    obtain ⟨hfne, hfhead⟩ := hok f (by simp)
    obtain ⟨c, f2, rfl⟩ : ∃ c f2, f = c :: f2 := by
      cases f with
      | nil => exact absurd rfl hfne
      | cons c f2 => exact ⟨c, f2, rfl⟩
    have hc : c ≠ '"' := by simpa using hfhead
    have hesc : escQuotes (c :: f2) = c :: escQuotes f2 := by simp [escQuotes, hc]
    cases rest with
    | nil =>
      show CsvB.parseCSVLineAux ('"' :: (escQuotes (c :: f2) ++ ['"'])) false [] = _
      rw [hesc, List.cons_append, CsvB.parseCSVLineAux_quote_other c hc,
        Bool.not_false, CsvB.parseCSVLineAux_char c hc, parseCSVLineAux_escaped]
      show [trimStr (f2.reverse ++ [c]).reverse] = _
      simp
    | cons g rest2 =>
      have hg := ih (by simp) (fun x hx => hok x (by simp [hx]))
      show CsvB.parseCSVLineAux
        ('"' :: (escQuotes (c :: f2) ++ ['"']) ++ ',' :: encodeFields (g :: rest2))
        false [] = _
      have harr : ('"' :: (escQuotes (c :: f2) ++ ['"']) ++ ',' :: encodeFields (g :: rest2) : Str)
          = '"' :: c :: (escQuotes f2 ++ '"' :: ',' :: encodeFields (g :: rest2)) := by
        rw [hesc]
        simp
      rw [harr, CsvB.parseCSVLineAux_quote_other c hc,
        Bool.not_false, CsvB.parseCSVLineAux_char c hc, parseCSVLineAux_escaped]
      show trimStr (f2.reverse ++ [c]).reverse ::
        CsvB.parseCSVLineAux (encodeFields (g :: rest2)) false [] = _
      rw [show CsvB.parseCSVLineAux (encodeFields (g :: rest2)) false []
            = CsvB.parseCSVLine (encodeFields (g :: rest2)) from rfl, hg]
      simp

/-- Witness for C3: the round trip applied to a concrete row whose first
field contains a comma and whose second field contains a quote. -/
theorem c3_parseCSVLine_quoted_roundtrip_witness :
    CsvB.parseCSVLine (encodeFields [str "a,b", str "x\"y"])
      = [str "a,b", str "x\"y"] :=
  (c3_parseCSVLine_quoted_roundtrip.1 [str "a,b", str "x\"y"]
    (by decide) (by decide)).trans (by decide)

/-! ## `src/src/utils/dataValidation.ts` -/

/-- Collapse every whitespace run to a single space
(JS `replace(/\s+/g, ' ')`), tracked with a previous-was-space flag. -/
def collapseWSAux : Bool → Str → Str
  | _, [] => []
  | prevSpace, c :: rest =>
    if isSpaceJS c then
      if prevSpace then collapseWSAux true rest
      else ' ' :: collapseWSAux true rest
    else c :: collapseWSAux false rest

/-- JS `replace(/\s+/g, ' ')`. -/
def collapseWS (l : Str) : Str := collapseWSAux false l

namespace DataValidation

/-- `normalizeTitleForComparison` from `src/src/utils/dataValidation.ts`
(lines 194-200): lower-case, strip `[^\w\s]`, collapse whitespace, trim. -/
def normalizeTitleForComparison (title : Str) : Str :=
  trimStr (collapseWS ((toLowerStr title).filter
    (fun c => isWordCharJS c || isSpaceJS c)))

/-- Worker for `removeDuplicatePapers`, threading the `seenTitles` set. -/
def removeDuplicatePapersAux : List PaperRecord → List Str → List PaperRecord
  | [], _ => []
  | p :: rest, seen =>
    let t := normalizeTitleForComparison p.title
    if t ∈ seen then removeDuplicatePapersAux rest seen
    else p :: removeDuplicatePapersAux rest (t :: seen)

/-- `removeDuplicatePapers` from `src/src/utils/dataValidation.ts`
(lines 175-189). -/
def removeDuplicatePapers (papers : List PaperRecord) : List PaperRecord :=
  removeDuplicatePapersAux papers []

/-- Claim-side definition, following the specification's words: keep a
paper exactly when its normalized title has no earlier occurrence. -/
def firstOccurrences : List PaperRecord → List PaperRecord
  | [] => []
  | p :: rest =>
    p :: firstOccurrences (rest.filter (fun q =>
      normalizeTitleForComparison q.title ≠ normalizeTitleForComparison p.title))
termination_by l => l.length
decreasing_by
  have := List.length_filter_le (fun q : PaperRecord =>
    decide (normalizeTitleForComparison q.title ≠ normalizeTitleForComparison p.title)) rest
  simp only [List.length_cons]
  omega

theorem removeDuplicatePapersAux_eq (papers : List PaperRecord) :
    ∀ seen, removeDuplicatePapersAux papers seen
      = firstOccurrences (papers.filter
          (fun p => normalizeTitleForComparison p.title ∉ seen)) := by
  induction papers with
  | nil => intro seen; simp [removeDuplicatePapersAux, firstOccurrences]
  | cons p rest ih =>
    intro seen
    rw [removeDuplicatePapersAux]
    by_cases hmem : normalizeTitleForComparison p.title ∈ seen
    · rw [if_pos hmem, ih seen]
      have : (List.filter (fun p => decide (normalizeTitleForComparison p.title ∉ seen))
          (p :: rest)) = rest.filter (fun p => normalizeTitleForComparison p.title ∉ seen) := by
        simp [List.filter_cons, hmem]
      rw [this]
    · rw [if_neg hmem, ih]
      have hhead : (List.filter (fun p => decide (normalizeTitleForComparison p.title ∉ seen))
          (p :: rest)) = p :: rest.filter (fun p => normalizeTitleForComparison p.title ∉ seen) := by
        simp [List.filter_cons, hmem]
      rw [hhead, firstOccurrences, List.filter_filter]
      have hft : rest.filter (fun q =>
            normalizeTitleForComparison q.title
              ∉ normalizeTitleForComparison p.title :: seen)
          = rest.filter (fun a =>
              decide (normalizeTitleForComparison a.title
                ≠ normalizeTitleForComparison p.title) &&
              decide (normalizeTitleForComparison a.title ∉ seen)) := by
        apply List.filter_congr
        intro q _
        by_cases h1 : normalizeTitleForComparison q.title
            = normalizeTitleForComparison p.title
        · simp [h1]
        · by_cases h2 : normalizeTitleForComparison q.title ∈ seen <;> simp [h1, h2]
      rw [hft]

theorem firstOccurrences_sublist :
    ∀ papers : List PaperRecord, (firstOccurrences papers).Sublist papers := by
  intro papers
  induction papers using firstOccurrences.induct with
  | case1 => simp [firstOccurrences]
  | case2 p rest ih =>
    rw [firstOccurrences]
    exact (ih.trans (List.filter_sublist rest)).cons₂ p

theorem firstOccurrences_pairwise :
    ∀ papers : List PaperRecord, (firstOccurrences papers).Pairwise
      (fun p q => normalizeTitleForComparison p.title ≠ normalizeTitleForComparison q.title) := by
  intro papers
  induction papers using firstOccurrences.induct with
  | case1 => simp [firstOccurrences]
  | case2 p rest ih =>
    rw [firstOccurrences]
    refine List.Pairwise.cons ?_ ih
    intro q hq
    have hmem := (firstOccurrences_sublist _).mem hq
    have := List.of_mem_filter hmem
    intro heq
    simp [heq] at this

theorem firstOccurrences_covers :
    ∀ papers : List PaperRecord, ∀ p ∈ papers,
      ∃ q ∈ firstOccurrences papers,
        normalizeTitleForComparison q.title = normalizeTitleForComparison p.title := by
  intro papers
  induction papers using firstOccurrences.induct with
  | case1 => simp
  | case2 hd rest ih =>
    intro p hp
    rcases List.mem_cons.mp hp with rfl | hrest
    · exact ⟨p, by simp [firstOccurrences], rfl⟩
    · by_cases hsame : normalizeTitleForComparison p.title
          = normalizeTitleForComparison hd.title
      · exact ⟨hd, by simp [firstOccurrences], hsame.symm⟩
      · have hpf : p ∈ rest.filter (fun q =>
            normalizeTitleForComparison q.title ≠ normalizeTitleForComparison hd.title) :=
          List.mem_filter.mpr ⟨hrest, by simpa using hsame⟩
        obtain ⟨q, hq, hqt⟩ := ih p hpf
        refine ⟨q, ?_, hqt⟩
        rw [firstOccurrences]
        exact List.mem_cons_of_mem hd hq

/-! ## Claim C6 -/

/-- C6: `removeDuplicatePapers` returns the subsequence of its input
keeping exactly the first occurrence of each normalized title (the
claim-side `firstOccurrences`), its output is a sublist of the input
(no record is modified), the normalized titles of the output are
pairwise distinct, and every input paper has a representative with the
same normalized title in the output. -/
theorem c6_removeDuplicates_keeps_first (papers : List PaperRecord) :
    removeDuplicatePapers papers = firstOccurrences papers ∧
    (removeDuplicatePapers papers).Sublist papers ∧
    (removeDuplicatePapers papers).Pairwise
      (fun p q => normalizeTitleForComparison p.title
        ≠ normalizeTitleForComparison q.title) ∧
    (∀ p ∈ papers, ∃ q ∈ removeDuplicatePapers papers,
      normalizeTitleForComparison q.title = normalizeTitleForComparison p.title) := by
  have heq : removeDuplicatePapers papers = firstOccurrences papers := by
    rw [removeDuplicatePapers, removeDuplicatePapersAux_eq]
    simp
  refine ⟨heq, ?_, ?_, ?_⟩
  · rw [heq]; exact firstOccurrences_sublist papers
  · rw [heq]; exact firstOccurrences_pairwise papers
  · rw [heq]; exact firstOccurrences_covers papers

/-- A minimal record constructor used by concrete witness instances. -/
def paperTitled (t : Str) : PaperRecord :=
  { key := [], itemType := [], publicationYear := none, authors := [],
    title := t, publicationTitle := [], doi := [], url := [],
    abstract := [], tags := [], venue := [] }

/-- Witness for C6: the membership-hypothesis conjunct applied to a
concrete 3-paper list in which the second title is a punctuation variant
of the first. -/
theorem c6_removeDuplicates_keeps_first_witness :
    ∃ q ∈ removeDuplicatePapers
        [paperTitled (str "A Title"), paperTitled (str "a title!"),
         paperTitled (str "Other")],
      normalizeTitleForComparison q.title
        = normalizeTitleForComparison (paperTitled (str "a title!")).title :=
  (c6_removeDuplicates_keeps_first
    [paperTitled (str "A Title"), paperTitled (str "a title!"),
     paperTitled (str "Other")]).2.2.2
    (paperTitled (str "a title!")) (by decide)

end DataValidation

/-! ## JS numbers with NaN/Infinity, for the quality metrics -/

/-- The fragment of IEEE-754 semantics needed by the quality metrics:
exact rationals extended with NaN and the two infinities. -/
inductive JsNum where
  | nan : JsNum
  | inf : JsNum
  | ninf : JsNum
  | num : ℚ → JsNum
deriving DecidableEq, Repr

/-- JS division on `JsNum`: division by zero yields NaN for a zero
numerator and a signed infinity otherwise. -/
def JsNum.div : JsNum → JsNum → JsNum
  | nan, _ => nan
  | _, nan => nan
  | num a, num b =>
    if b = 0 then (if a = 0 then nan else if 0 < a then inf else ninf)
    else num (a / b)
  | num _, inf => num 0
  | num _, ninf => num 0
  | inf, num b => if b < 0 then ninf else inf
  | ninf, num b => if b < 0 then inf else ninf
  | inf, inf => nan
  | inf, ninf => nan
  | ninf, inf => nan
  | ninf, ninf => nan

/-- JS multiplication on `JsNum`: NaN propagates, infinity times zero is
NaN. -/
def JsNum.mul : JsNum → JsNum → JsNum
  | nan, _ => nan
  | _, nan => nan
  | num a, num b => num (a * b)
  | inf, num b => if b = 0 then nan else if 0 < b then inf else ninf
  | num a, inf => if a = 0 then nan else if 0 < a then inf else ninf
  | ninf, num b => if b = 0 then nan else if 0 < b then ninf else inf
  | num a, ninf => if a = 0 then nan else if 0 < a then ninf else inf
  | inf, inf => inf
  | inf, ninf => ninf
  | ninf, inf => ninf
  | ninf, ninf => inf

/-- `QualityIndicators` from `src/types/index.ts`; the four coverage
fields are JS numbers and may be NaN. -/
structure QualityIndicators where
  totalPapers : Nat
  doiCoverage : JsNum
  urlCoverage : JsNum
  abstractCoverage : JsNum
  recentPapers : JsNum
deriving DecidableEq, Repr

namespace CsvA

/-- `calculateQualityMetrics` from `src/src/data/csvParser.ts`
(lines 207-225); the body in `src/unnamed/part_004` (lines 255-273) is
identical.  `new Date().getFullYear()` is the explicit `currentYear`
parameter; a JS `p.publicationYear &&` test is false for `null` and for
the (never produced) year `0`. -/
def calculateQualityMetrics (currentYear : Nat) (papers : List PaperRecord) :
    QualityIndicators :=
  let totalPapers := papers.length
  let doiCount := (papers.filter (fun p => p.doi ≠ [] ∧ trimStr p.doi ≠ [])).length
  let urlCount := (papers.filter (fun p => p.url ≠ [] ∧ trimStr p.url ≠ [])).length
  let abstractCount :=
    (papers.filter (fun p => p.abstract ≠ [] ∧ trimStr p.abstract ≠ [])).length
  let recentCount := (papers.filter (fun p =>
    match p.publicationYear with
    | some y => y ≠ 0 ∧ (y : Int) ≥ (currentYear : Int) - 5
    | none => False)).length
  { totalPapers := totalPapers,
    doiCoverage :=
      JsNum.mul (JsNum.div (JsNum.num doiCount) (JsNum.num totalPapers)) (JsNum.num 100),
    urlCoverage :=
      JsNum.mul (JsNum.div (JsNum.num urlCount) (JsNum.num totalPapers)) (JsNum.num 100),
    abstractCoverage :=
      JsNum.mul (JsNum.div (JsNum.num abstractCount) (JsNum.num totalPapers)) (JsNum.num 100),
    recentPapers :=
      JsNum.mul (JsNum.div (JsNum.num recentCount) (JsNum.num totalPapers)) (JsNum.num 100) }

end CsvA

/-! ## Claim C9 -/

/-- C9: on the empty paper list `calculateQualityMetrics` does not raise
(it is a total function): it returns `totalPapers = 0` and every
coverage field is the unguarded division `0/0`, i.e. NaN - not `0` and
not `100`. -/
theorem c9_qualityMetrics_empty_nan (currentYear : Nat) :
    CsvA.calculateQualityMetrics currentYear [] =
      { totalPapers := 0, doiCoverage := JsNum.nan, urlCoverage := JsNum.nan,
        abstractCoverage := JsNum.nan, recentPapers := JsNum.nan } ∧
    JsNum.nan ≠ JsNum.num 0 ∧ JsNum.nan ≠ JsNum.num 100 := by
  refine ⟨?_, by simp, by simp⟩
  rw [CsvA.calculateQualityMetrics]
  simp [JsNum.div, JsNum.mul]

/-! ## Claim C10: validation of a dataset -/

/-- Decimal rendering of a natural number (JS template interpolation). -/
def natToStr (n : Nat) : Str := (Nat.repr n).toList

namespace DataValidation

/-- `ValidationResult` from `src/src/utils/dataValidation.ts`. -/
structure ValidationResult where
  isValid : Bool
  errors : List Str
  warnings : List Str
deriving DecidableEq, Repr

/-- `isValidDOI` (lines 115-119): `/^10\.\d{4,}\/\S+$/` on the trimmed
string. -/
def isValidDOI (doi : Str) : Bool :=
  match trimStr doi with
  | '1' :: '0' :: '.' :: rest =>
    let digits := rest.takeWhile (fun c => c.isDigit)
    let after := rest.dropWhile (fun c => c.isDigit)
    4 ≤ digits.length &&
      (match after with
       | '/' :: tail => tail ≠ [] && tail.all (fun c => !isSpaceJS c)
       | _ => false)
  | _ => false

/-- `isValidAuthorName` (lines 136-153).  The special-character density
test `count > length * 0.3` is modelled with exact rationals
(`10 * count > 3 * length`). -/
def isValidAuthorName (name : Str) : Bool :=
  let trimmed := trimStr name
  if trimmed.length < 2 then false
  else if !(trimmed.any (fun c => ('a' ≤ c && c ≤ 'z') || ('A' ≤ c && c ≤ 'Z'))) then
    false
  else if trimmed ≠ [] && trimmed.all (fun c => c.isDigit) then false
  else
    let specialCharCount := (trimmed.filter (fun c =>
      !(('a' ≤ c && c ≤ 'z') || ('A' ≤ c && c ≤ 'Z') || ('0' ≤ c && c ≤ '9') ||
        isSpaceJS c || c = '-' || c = '.'))).length
    !(3 * trimmed.length < 10 * specialCharCount)

/-- The indexed author-name warnings of `validatePaperRecord`. -/
def authorWarningsAux : Nat → List Str → List Str
  | _, [] => []
  | i, a :: rest =>
    (if isValidAuthorName a = false then
      [str "Author name at index " ++ natToStr i ++
        str " may be malformed: \"" ++ a ++ str "\""]
     else []) ++ authorWarningsAux (i + 1) rest

/-- `validatePaperRecord` (lines 16-60), with the WHATWG URL parser
(`new URL`, a host API) abstracted as the `validURL` parameter. -/
def validatePaperRecord (validURL : Str → Bool) (paper : PaperRecord) :
    ValidationResult :=
  let errors :=
    if paper.title = [] ∨ trimStr paper.title = [] then [str "Title is required"]
    else []
  let warnings :=
    (if paper.authors = [] then [str "No authors specified"] else []) ++
    (match paper.publicationYear with
     | some y =>
       if y < 1990 ∨ y > 2025 then
         [str "Publication year " ++ natToStr y ++
           str " is outside expected range (1990-2025)"]
       else []
     | none => [str "Publication year is missing"]) ++
    (if paper.doi ≠ [] ∧ isValidDOI paper.doi = false then
      [str "DOI format appears invalid"] else []) ++
    (if paper.url ≠ [] ∧ validURL paper.url = false then
      [str "URL format appears invalid"] else []) ++
    authorWarningsAux 0 paper.authors
  { isValid := errors.length = 0, errors := errors, warnings := warnings }

/-- `overallStats` of `validatePaperDataset`. -/
structure OverallStats where
  totalPapers : Nat
  validPapers : Nat
  papersWithWarnings : Nat
  duplicateKeys : List Str
deriving DecidableEq, Repr

/-- The result record of `validatePaperDataset`. -/
structure DatasetValidation where
  validPapers : List PaperRecord
  invalidPapers : List (PaperRecord × ValidationResult)
  overallStats : OverallStats
deriving DecidableEq, Repr

/-- The `forEach` loop of `validatePaperDataset`, threading the
`keysSeen` set and returning (validPapers, invalidPapers,
duplicateKeys, papersWithWarnings). -/
def validatePaperDatasetAux (validURL : Str → Bool) :
    List PaperRecord → List Str →
    List PaperRecord × List (PaperRecord × ValidationResult) × List Str × Nat
  | [], _ => ([], [], [], 0)
  | p :: rest, keysSeen =>
    let dupHere : List Str := if p.key ∈ keysSeen then [p.key] else []
    let validation := validatePaperRecord validURL p
    let r := validatePaperDatasetAux validURL rest (p.key :: keysSeen)
    if validation.isValid then
      (p :: r.1, r.2.1, dupHere ++ r.2.2.1,
        (if 0 < validation.warnings.length then 1 else 0) + r.2.2.2)
    else
      (r.1, (p, validation) :: r.2.1, dupHere ++ r.2.2.1, r.2.2.2)

/-- `validatePaperDataset` from `src/src/utils/dataValidation.ts`
(lines 65-110). -/
def validatePaperDataset (validURL : Str → Bool) (papers : List PaperRecord) :
    DatasetValidation :=
  let r := validatePaperDatasetAux validURL papers []
  { validPapers := r.1,
    invalidPapers := r.2.1,
    overallStats :=
      { totalPapers := papers.length,
        validPapers := r.1.length,
        papersWithWarnings := r.2.2.2,
        duplicateKeys := r.2.2.1 } }

theorem validatePaperRecord_isValid (validURL : Str → Bool) (p : PaperRecord) :
    (validatePaperRecord validURL p).isValid = true ↔ trimStr p.title ≠ [] := by
  rw [validatePaperRecord]
  by_cases h : p.title = [] ∨ trimStr p.title = []
  · have ht : trimStr p.title = [] := by
      rcases h with h | h
      · simp [h, trimStr]
      · exact h
    simp [h, ht]
  · have ht : trimStr p.title ≠ [] := fun hc => h (Or.inr hc)
    have ht2 : p.title ≠ [] := fun hc => h (Or.inl hc)
    simp [h, ht, ht2]

theorem validatePaperDatasetAux_split (validURL : Str → Bool) :
    ∀ (papers : List PaperRecord) (seen : List Str),
      (validatePaperDatasetAux validURL papers seen).1
        = papers.filter (fun p => trimStr p.title ≠ []) ∧
      (validatePaperDatasetAux validURL papers seen).2.1.map Prod.fst
        = papers.filter (fun p => trimStr p.title = []) ∧
      (validatePaperDatasetAux validURL papers seen).2.1.map Prod.snd
        = (papers.filter (fun p => trimStr p.title = [])).map
            (validatePaperRecord validURL) := by
  intro papers
  induction papers with
  | nil => intro seen; exact ⟨rfl, rfl, rfl⟩
  | cons p rest ih =>
    intro seen
    obtain ⟨ih1, ih2, ih3⟩ := ih (p.key :: seen)
    rw [validatePaperDatasetAux]
    by_cases hv : trimStr p.title = []
    · have hval : (validatePaperRecord validURL p).isValid = false := by
        rw [← Bool.not_eq_true, validatePaperRecord_isValid]
        simp [hv]
      simp only [hval, Bool.false_eq_true, if_false]
      refine ⟨?_, ?_, ?_⟩
      · simpa [List.filter_cons, hv] using ih1
      · simpa [List.filter_cons, hv] using ih2
      · simpa [List.filter_cons, hv] using ih3
    · have hval : (validatePaperRecord validURL p).isValid = true := by
        rw [validatePaperRecord_isValid]
        exact hv
      simp only [hval, if_true]
      refine ⟨?_, ?_, ?_⟩
      · simpa [List.filter_cons, hv] using ih1
      · simpa [List.filter_cons, hv] using ih2
      · simpa [List.filter_cons, hv] using ih3

theorem validatePaperDatasetAux_dups (validURL : Str → Bool) :
    ∀ (papers : List PaperRecord) (seen : List Str) (k : Str),
      k ∈ (validatePaperDatasetAux validURL papers seen).2.2.1 ↔
        ((k ∈ seen ∧ 1 ≤ papers.countP (fun p => p.key = k)) ∨
         2 ≤ papers.countP (fun p => p.key = k)) := by
  intro papers
  induction papers with
  | nil =>
    intro seen k
    simp [validatePaperDatasetAux]
  | cons p rest ih =>
    intro seen k
    have hcount : (p :: rest).countP (fun q => decide (q.key = k))
        = rest.countP (fun q => decide (q.key = k)) +
          (if p.key = k then 1 else 0) := by
      rw [List.countP_cons]
      simp
    have hmemdup : k ∈ (validatePaperDatasetAux validURL (p :: rest) seen).2.2.1 ↔
        ((p.key ∈ seen ∧ k = p.key) ∨
         k ∈ (validatePaperDatasetAux validURL rest (p.key :: seen)).2.2.1) := by
      rw [validatePaperDatasetAux]
      by_cases hv : (validatePaperRecord validURL p).isValid <;>
        by_cases hd : p.key ∈ seen <;>
          simp [hv, hd, List.mem_cons, eq_comm]
    rw [hmemdup, ih (p.key :: seen) k, hcount]
    by_cases he : p.key = k
    · subst he
      have he1 : (if p.key = p.key then 1 else 0) = 1 := by simp
      rw [he1]
      by_cases hs : p.key ∈ seen <;> simp [hs, List.mem_cons]
      intro h2
      have hpos : 0 < List.countP (fun q => decide (q.key = p.key)) rest := by omega
      simpa using List.countP_pos_iff.mp hpos
    · have hne : ¬(k = p.key) := fun hc => he hc.symm
      simp only [List.mem_cons, hne, false_or, if_neg he, Nat.add_zero,
        false_and, or_iff_right_iff_imp]
      tauto

/-- C10: `validatePaperDataset` partitions its input by the only hard
error (empty trimmed title): `validPapers` is exactly the sublist of
papers with a non-empty title, `invalidPapers` carries exactly the
others (unmodified, paired with their validation), the two lengths sum
to `overallStats.totalPapers` = input length, and a key appears in
`duplicateKeys` exactly when it occurs on at least two input papers -
duplicate-key papers are reported, never removed. -/
theorem c10_validateDataset_partition (validURL : Str → Bool)
    (papers : List PaperRecord) :
    (validatePaperDataset validURL papers).validPapers
      = papers.filter (fun p => trimStr p.title ≠ []) ∧
    (validatePaperDataset validURL papers).invalidPapers.map Prod.fst
      = papers.filter (fun p => trimStr p.title = []) ∧
    (validatePaperDataset validURL papers).validPapers.length
        + (validatePaperDataset validURL papers).invalidPapers.length
      = papers.length ∧
    (validatePaperDataset validURL papers).overallStats.totalPapers
      = papers.length ∧
    (∀ k : Str, k ∈ (validatePaperDataset validURL papers).overallStats.duplicateKeys
      ↔ 2 ≤ papers.countP (fun p => p.key = k)) := by
  obtain ⟨h1, h2, _⟩ := validatePaperDatasetAux_split validURL papers []
  refine ⟨h1, h2, ?_, rfl, ?_⟩
  · have hlen : (validatePaperDataset validURL papers).invalidPapers.length
        = (papers.filter (fun p => trimStr p.title = [])).length := by
      rw [← h2, List.length_map]
      rfl
    rw [show (validatePaperDataset validURL papers).validPapers
        = (validatePaperDatasetAux validURL papers []).1 from rfl, h1, hlen]
    have hsum := List.length_eq_length_filter_add (l := papers)
      (fun p => decide (trimStr p.title ≠ []))
    have hcongr : papers.filter (fun p => !decide (trimStr p.title ≠ []))
        = papers.filter (fun p => trimStr p.title = []) := by
      apply List.filter_congr
      intro q _
      by_cases hq : trimStr q.title = [] <;> simp [hq]
    rw [hcongr] at hsum
    omega
  · intro k
    rw [show (validatePaperDataset validURL papers).overallStats.duplicateKeys
        = (validatePaperDatasetAux validURL papers []).2.2.1 from rfl,
      validatePaperDatasetAux_dups validURL papers [] k]
    simp

end DataValidation

/-! ## `src/src/utils/authorAnalysis.ts` -/

namespace AuthorAnalysis

/-- `cleanAuthorName` from `src/src/utils/authorAnalysis.ts`
(lines 51-58): trim, strip honorific prefix and generational suffix,
collapse whitespace, lower-case. -/
def cleanAuthorName (name : Str) : Str :=
  toLowerStr (collapseWS (stripGenSuffix (stripHonorific (trimStr name))))

/-- One token pair comparison of `areAuthorNamesSimilar`: exact match,
or one side is a single character that the other side starts with. -/
def tokenMatch (part1 part2 : Str) : Bool :=
  part1 == part2 || (part1.length == 1 && isPrefixB part1 part2) ||
    (part2.length == 1 && isPrefixB part2 part1)

/-- `areAuthorNamesSimilar` from `src/src/utils/authorAnalysis.ts`
(lines 97-133).  The final two-token swapped-order branch is kept as in
the source even though it is unreachable (it requires both token counts
to be 2, but it is only evaluated when the counts differ). -/
def areAuthorNamesSimilar (name1 name2 : Str) : Bool :=
  if name1 == name2 then true
  else
    let parts1 := splitOnChar ' ' name1
    let parts2 := splitOnChar ' ' name2
    if parts1.length == parts2.length then
      ((parts1.zip parts2).countP (fun pq => tokenMatch pq.1 pq.2)) == parts1.length
    else if parts1.length == 2 && parts2.length == 2 then
      parts1.getD 0 [] == parts2.getD 1 [] && parts1.getD 1 [] == parts2.getD 0 []
    else false

/-- Claim-side merge criterion, as amended: the cleaned names are equal,
or they split into equally many space-separated tokens and every token
pair matches exactly or by a one-character initial prefix. -/
def namesSimilarSpec (name1 name2 : Str) : Prop :=
  name1 = name2 ∨
  ((splitOnChar ' ' name1).length = (splitOnChar ' ' name2).length ∧
    ∀ pq ∈ (splitOnChar ' ' name1).zip (splitOnChar ' ' name2),
      tokenMatch pq.1 pq.2 = true)

end AuthorAnalysis

/-! ## Claim C2 -/

/-- C2 counterexample: after `cleanAuthorName`, the strings `J. Smith`
and `John Smith` become `j. smith` and `john smith`; the token `j.` has
two characters, so the single-letter-initial rule does not apply and
`areAuthorNamesSimilar` returns `false` - the claim's first example
fails on the code.  The claim's swapped-order clause also fails: the
two-token swap branch is dead code, so `smith john` vs `john smith` do
not merge either. -/
theorem c2_author_similarity_counterexample :
    AuthorAnalysis.areAuthorNamesSimilar
      (AuthorAnalysis.cleanAuthorName (str "J. Smith"))
      (AuthorAnalysis.cleanAuthorName (str "John Smith")) = false ∧
    AuthorAnalysis.cleanAuthorName (str "J. Smith") = str "j. smith" ∧
    AuthorAnalysis.cleanAuthorName (str "John Smith") = str "john smith" ∧
    AuthorAnalysis.areAuthorNamesSimilar (str "smith john") (str "john smith")
      = false := by decide

/-- C2 (amended): two cleaned names merge iff they are equal, or have
equal token counts with every token pair equal or matched by a
single-character initial; the swapped-order clause of the original claim
never applies (dead branch), and an initial with a trailing period such
as `J. Smith` does not merge with `John Smith`, while the bare initial
`J Smith` does; `John Smith` vs `Jane Smith` never merge. -/
theorem c2_author_similarity_amended :
    (∀ name1 name2 : Str,
      AuthorAnalysis.areAuthorNamesSimilar name1 name2 = true ↔
        AuthorAnalysis.namesSimilarSpec name1 name2) ∧
    AuthorAnalysis.areAuthorNamesSimilar
      (AuthorAnalysis.cleanAuthorName (str "J Smith"))
      (AuthorAnalysis.cleanAuthorName (str "John Smith")) = true ∧
    AuthorAnalysis.areAuthorNamesSimilar
      (AuthorAnalysis.cleanAuthorName (str "J. Smith"))
      (AuthorAnalysis.cleanAuthorName (str "John Smith")) = false ∧
    AuthorAnalysis.areAuthorNamesSimilar
      (AuthorAnalysis.cleanAuthorName (str "John Smith"))
      (AuthorAnalysis.cleanAuthorName (str "Jane Smith")) = false := by
  refine ⟨?_, by decide, by decide, by decide⟩
  intro name1 name2
  rw [AuthorAnalysis.areAuthorNamesSimilar, AuthorAnalysis.namesSimilarSpec]
  simp only [beq_iff_eq, Bool.and_eq_true]
  by_cases heq : name1 = name2
  · simp [heq]
  · rw [if_neg heq]
    by_cases hlen : (splitOnChar ' ' name1).length = (splitOnChar ' ' name2).length
    · rw [if_pos hlen, beq_iff_eq]
      have hziplen : ((splitOnChar ' ' name1).zip (splitOnChar ' ' name2)).length
          = (splitOnChar ' ' name1).length := by
        rw [List.length_zip, hlen, Nat.min_self]
      constructor
      · intro h
        refine Or.inr ⟨hlen, ?_⟩
        rw [← hziplen] at h
        exact List.countP_eq_length.mp h
      · rintro (h | ⟨_, hall⟩)
        · exact absurd h heq
        · rw [← hziplen]
          exact List.countP_eq_length.mpr hall
    · rw [if_neg hlen]
      have h22 : ¬((splitOnChar ' ' name1).length = 2
          ∧ (splitOnChar ' ' name2).length = 2) := by
        rintro ⟨a, b⟩
        exact hlen (a.trans b.symm)
      rw [if_neg h22]
      simp [heq, hlen]

/-! ## `src/src/utils/textAnalysis.ts` -/

namespace TextAnalysis

/-- `TOPIC_KEYWORDS` from `src/src/utils/textAnalysis.ts` (lines 20-56). -/
def TOPIC_KEYWORDS : List (Str × List Str) :=
  [ (str "security", [str "security", str "cybersecurity", str "cyber", str "attack",
      str "defense", str "threat", str "vulnerability", str "malware", str "intrusion",
      str "breach", str "protection", str "secure", str "encryption",
      str "authentication", str "authorization", str "firewall", str "ids",
      str "ips", str "forensics", str "incident"]),
    (str "economics", [str "economic", str "economics", str "cost", str "benefit",
      str "investment", str "roi", str "market", str "price", str "pricing",
      str "incentive", str "utility", str "profit", str "loss", str "budget",
      str "financial", str "monetary", str "value", str "worth", str "expense",
      str "revenue", str "insurance"]),
    (str "risk", [str "risk", str "risks", str "risky", str "uncertainty",
      str "probability", str "likelihood", str "assessment", str "management",
      str "mitigation", str "analysis", str "evaluation", str "measurement",
      str "quantification", str "modeling", str "prediction", str "forecast",
      str "scenario", str "impact", str "consequence"]),
    (str "aiml", [str "artificial", str "intelligence", str "machine", str "learning",
      str "neural", str "network", str "deep", str "algorithm", str "model",
      str "training", str "classification", str "prediction", str "ai", str "ml",
      str "data", str "mining", str "pattern", str "recognition", str "automation",
      str "cognitive"]),
    (str "gameTheory", [str "game", str "theory", str "strategic", str "player",
      str "strategy", str "equilibrium", str "nash", str "payoff", str "cooperation",
      str "competition", str "coalition", str "bargaining", str "auction",
      str "mechanism", str "design", str "optimal", str "decision", str "rational",
      str "behavior"]),
    (str "network", [str "network", str "networks", str "networking", str "topology",
      str "node", str "edge", str "graph", str "connectivity", str "routing",
      str "protocol", str "communication", str "distributed", str "peer",
      str "client", str "server", str "infrastructure", str "internet", str "web"]),
    (str "privacy", [str "privacy", str "private", str "confidential", str "anonymous",
      str "anonymity", str "personal", str "data", str "information",
      str "disclosure", str "sharing", str "protection", str "gdpr",
      str "compliance", str "consent", str "tracking", str "surveillance",
      str "identity"]) ]

/-- Count the positions at which `/\b kw \b/` matches, scanning with a
previous-character-is-word flag.  All keywords in `TOPIC_KEYWORDS` are
purely alphabetic, so the boundary conditions make matches disjoint and
this position count equals the number of `g`-flag regex matches. -/
def countWordMatchesAux (kw : Str) : Bool → Str → Nat
  | _, [] => 0
  | prevWord, c :: rest =>
    (if !prevWord && isPrefixB kw (c :: rest) &&
        (match (c :: rest).drop kw.length with
         | [] => true
         | d :: _ => !isWordCharJS d) then 1 else 0)
    + countWordMatchesAux kw (isWordCharJS c) rest

/-- Number of whole-word (boundary-matched) occurrences of `kw`. -/
def countWordMatches (kw text : Str) : Nat := countWordMatchesAux kw false text

/-- The text classified by `classifyPaperTopics`:
`` `${title} ${abstract} ${tags.join(' ')}`.toLowerCase() ``. -/
def fullTextOf (paper : PaperRecord) : Str :=
  toLowerStr (paper.title ++ ' ' :: paper.abstract ++ ' ' :: joinWith [' '] paper.tags)

/-- `classifyPaperTopics` from `src/src/utils/textAnalysis.ts`
(lines 96-116): per topic, the summed whole-word keyword matches,
normalized by `score / Math.max(fullText.length / 100, 1)`. -/
def classifyPaperTopics (paper : PaperRecord) : List (Str × ℚ) :=
  let fullText := fullTextOf paper
  TOPIC_KEYWORDS.map (fun tk =>
    (tk.1,
     (((tk.2.map (fun kw => countWordMatches kw fullText)).sum : ℕ) : ℚ)
       / max ((fullText.length : ℚ) / 100) 1))

end TextAnalysis

/-! ## Claim C4 -/

/-- A one-word paper used to refute the all-inputs normalization claim. -/
def securityOnlyPaper : PaperRecord := DataValidation.paperTitled (str "security")

/-- Looking up the `security` topic in the classification result yields
the first topic's score term; the keys are concrete, so this is a
definitional computation that never forces the rational score values. -/
theorem lookup_classify_security (p : PaperRecord) :
    (TextAnalysis.classifyPaperTopics p).lookup (str "security")
      = some (((List.map (fun kw => TextAnalysis.countWordMatches kw
            (TextAnalysis.fullTextOf p))
            [str "security", str "cybersecurity", str "cyber", str "attack",
             str "defense", str "threat", str "vulnerability", str "malware",
             str "intrusion", str "breach", str "protection", str "secure",
             str "encryption", str "authentication", str "authorization",
             str "firewall", str "ids", str "ips", str "forensics",
             str "incident"]).sum : ℚ)
          / max (((TextAnalysis.fullTextOf p).length : ℚ) / 100) 1) := rfl

/-- The `security` score of the one-word paper is exactly 1: the raw
keyword count is 1, the text length is 10, and the divisor
`max(10/100, 1)` is clamped to 1. -/
theorem classify_security_eq_one :
    (TextAnalysis.classifyPaperTopics securityOnlyPaper).lookup (str "security")
      = some 1 := by
  rw [lookup_classify_security]
  have hsum : (List.map (fun kw => TextAnalysis.countWordMatches kw
      (TextAnalysis.fullTextOf securityOnlyPaper))
      [str "security", str "cybersecurity", str "cyber", str "attack",
       str "defense", str "threat", str "vulnerability", str "malware",
       str "intrusion", str "breach", str "protection", str "secure",
       str "encryption", str "authentication", str "authorization",
       str "firewall", str "ids", str "ips", str "forensics",
       str "incident"]).sum = 1 := by decide
  have hlen : (TextAnalysis.fullTextOf securityOnlyPaper).length = 10 := by decide
  rw [hsum, hlen]
  have hm : max (((10 : ℕ) : ℚ) / 100) 1 = 1 := by
    apply max_eq_right
    norm_num
  rw [hm]
  norm_num

/-- C4 counterexample: for the paper titled `security` (empty abstract,
no tags) the classified text is `security  ` of length 10 with one
boundary-matched occurrence of the keyword `security`, and the code
returns score 1 (the divisor is clamped to 1), not the
`1 / (10/100) = 10` that normalizing by text length for all inputs
would give. -/
theorem c4_classify_counterexample :
    (TextAnalysis.classifyPaperTopics securityOnlyPaper).lookup (str "security")
      = some 1 ∧
    (TextAnalysis.fullTextOf securityOnlyPaper).length = 10 ∧
    TextAnalysis.countWordMatches (str "security")
      (TextAnalysis.fullTextOf securityOnlyPaper) = 1 ∧
    (1 : ℚ) ≠ 1 / ((10 : ℚ) / 100) := by
  refine ⟨classify_security_eq_one, by decide, by decide, by norm_num⟩

/-- C4 (amended): `classifyPaperTopics` normalizes by text length only
for texts longer than 100 characters: each topic's score is the raw
whole-word keyword count divided by `max(length/100, 1)`, i.e. the raw
count itself when the text has at most 100 characters, and
`count * 100 / length` otherwise. -/
theorem c4_classify_two_regimes :
    (∀ paper : PaperRecord,
      TextAnalysis.classifyPaperTopics paper
        = TextAnalysis.TOPIC_KEYWORDS.map (fun tk =>
            (tk.1,
             if (TextAnalysis.fullTextOf paper).length ≤ 100 then
               ((((tk.2.map (fun kw => TextAnalysis.countWordMatches kw
                   (TextAnalysis.fullTextOf paper))).sum : ℕ) : ℚ))
             else
               ((((tk.2.map (fun kw => TextAnalysis.countWordMatches kw
                   (TextAnalysis.fullTextOf paper))).sum : ℕ) : ℚ) * 100
                 / ((TextAnalysis.fullTextOf paper).length : ℚ))))) ∧
    (TextAnalysis.classifyPaperTopics securityOnlyPaper).lookup (str "security")
      = some 1 := by
  refine ⟨?_, classify_security_eq_one⟩
  intro paper
  rw [TextAnalysis.classifyPaperTopics]
  apply List.map_congr_left
  intro tk _
  have key : ∀ s : ℚ,
      s / max (((TextAnalysis.fullTextOf paper).length : ℚ) / 100) 1
        = if (TextAnalysis.fullTextOf paper).length ≤ 100 then s
          else s * 100 / ((TextAnalysis.fullTextOf paper).length : ℚ) := by
    intro s
    set n := (TextAnalysis.fullTextOf paper).length with hn
    by_cases hl : n ≤ 100
    · have hle : ((n : ℚ) / 100) ≤ 1 := by
        rw [div_le_one (by norm_num)]
        exact_mod_cast hl
      rw [max_eq_right hle, if_pos hl, div_one]
    · have hge : (1 : ℚ) ≤ (n : ℚ) / 100 := by
        rw [le_div_iff₀ (by norm_num)]
        have : (100 : ℚ) ≤ (n : ℚ) := by exact_mod_cast Nat.le_of_lt (Nat.not_le.mp hl)
        linarith
      rw [max_eq_left hge, if_neg hl, div_div_eq_mul_div]
  rw [key]

/-! ## Stable sorting (JS `Array.prototype.sort` is stable) -/

/-- Insert `x` before the first element `y` with `le x y`; used by the
stable insertion sort that models the (stable) JS array sort. -/
def insertSorted {α : Type} (le : α → α → Bool) (x : α) : List α → List α
  | [] => [x]
  | y :: rest => if le x y then x :: y :: rest else y :: insertSorted le x rest

/-- Stable sort by the boolean precedence `le` (`le x y` = `x` may come
before `y`); ties keep their original order, like the JS runtime sort. -/
def stableInsertionSort {α : Type} (le : α → α → Bool) : List α → List α
  | [] => []
  | x :: rest => insertSorted le x (stableInsertionSort le rest)

theorem mem_insertSorted {α : Type} (le : α → α → Bool) (x a : α) :
    ∀ l : List α, a ∈ insertSorted le x l ↔ a = x ∨ a ∈ l := by
  intro l
  induction l with
  | nil => simp [insertSorted]
  | cons y rest ih =>
    by_cases h : le x y
    · simp [insertSorted, h]
    · simp only [insertSorted, h, Bool.false_eq_true, if_false, List.mem_cons, ih]
      tauto

theorem mem_stableInsertionSort {α : Type} (le : α → α → Bool) (a : α) :
    ∀ l : List α, a ∈ stableInsertionSort le l ↔ a ∈ l := by
  intro l
  induction l with
  | nil => simp [stableInsertionSort]
  | cons x rest ih =>
    simp [stableInsertionSort, mem_insertSorted, ih]

/-- JS `Math.round`: round half toward positive infinity. -/
def jsRound (q : ℚ) : ℤ := ⌊q + 1 / 2⌋

/-! ## `src/src/utils/researchGapAnalysis.ts` -/

/-- `TopicCluster` from `src/types/index.ts`. -/
structure TopicCluster where
  id : Str
  label : Str
  size : Nat
  papers : List PaperRecord
  connections : List Str
  coverage : ℚ

namespace ResearchGapAnalysis

/-- `TopicIntersection` from `src/src/utils/researchGapAnalysis.ts`. -/
structure TopicIntersection where
  topics : List Str
  combinedLabel : Str
  expectedPapers : ℤ
  actualPapers : Nat
  gapSize : ℤ
  potentialImpact : ℚ

/-- The `type` field of a `ResearchGap`. -/
inductive GapType where
  | topical | temporal | methodological | geographic
deriving DecidableEq, Repr

/-- The `severity` field of a `ResearchGap`. -/
inductive Severity where
  | high | medium | low
deriving DecidableEq, Repr

/-- `YearRange` from `src/src/utils/researchGapAnalysis.ts`. -/
structure YearRange where
  startYear : Nat
  endYear : Nat
  expectedPapers : ℤ
  actualPapers : Nat
  gapSize : ℤ

/-- The `supportingData : any` payloads used by `analyzeTopicalGaps`. -/
inductive SupportingData where
  | intersectionData (expectedPapers : ℤ) (actualPapers : Nat) (gapSize : ℤ)
  | stagnantData (stagnantTopics emergingTopics : List Str)

/-- The `evidence` record of a `ResearchGap`. -/
structure GapEvidence where
  underRepresentedTopics : List Str
  citationGaps : List PaperRecord
  temporalGaps : List YearRange
  potentialImpact : ℚ
  supportingData : SupportingData

/-- `ResearchGap` from `src/src/utils/researchGapAnalysis.ts`. -/
structure ResearchGap where
  id : Str
  type : GapType
  title : Str
  description : Str
  severity : Severity
  evidence : GapEvidence
  recommendations : List Str
  opportunityScore : ℚ

/-- The hand-assigned domain buckets of `assessDomainDifference`. -/
def domainOf (t : Str) : Str :=
  if t = str "AI/ML" ∨ t = str "Network" ∨ t = str "Privacy" then str "technical"
  else if t = str "Economics" ∨ t = str "Risk Management" then str "economic"
  else if t = str "Game Theory" ∨ t = str "Security" then str "theoretical"
  else str "other"

/-- `assessDomainDifference` (lines 366-382): 1.5 for topics in
different buckets, 1.0 otherwise. -/
def assessDomainDifference (t1 t2 : Str) : ℚ :=
  if domainOf t1 ≠ domainOf t2 then 3 / 2 else 1

/-- `calculateTopicComplementarity` (lines 353-361). -/
def calculateTopicComplementarity (c1 c2 : TopicCluster) : ℚ :=
  min 1 (((c1.coverage + c2.coverage) / 200) * assessDomainDifference c1.label c2.label)

/-- The intersection record built by one iteration of the double loop in
`findTopicIntersections` (lines 310-348) for the cluster pair
`(c1, c2)`. -/
def mkIntersection (papers : List PaperRecord) (c1 c2 : TopicCluster) :
    TopicIntersection :=
  let intersection := c1.papers.filter (fun p1 => c2.papers.any (fun p2 => p2.key == p1.key))
  let expectedRatio := (c1.coverage / 100) * (c2.coverage / 100)
  let expectedPapers := jsRound ((papers.length : ℚ) * expectedRatio * (3 / 10))
  let actualPapers := intersection.length
  { topics := [c1.label, c2.label],
    combinedLabel := c1.label ++ str " + " ++ c2.label,
    expectedPapers := expectedPapers,
    actualPapers := actualPapers,
    gapSize := max 0 (expectedPapers - (actualPapers : ℤ)),
    potentialImpact := calculateTopicComplementarity c1 c2 }

/-- The inner loop of `findTopicIntersections`: pair `c1` with each
later cluster, pushing the intersection only when its gap is positive. -/
def intersectionsFor (papers : List PaperRecord) (c1 : TopicCluster) :
    List TopicCluster → List TopicIntersection
  | [] => []
  | c2 :: rest =>
    (if 0 < (mkIntersection papers c1 c2).gapSize then [mkIntersection papers c1 c2]
     else []) ++ intersectionsFor papers c1 rest

/-- The outer loop of `findTopicIntersections`. -/
def findTopicIntersectionsAux (papers : List PaperRecord) :
    List TopicCluster → List TopicIntersection
  | [] => []
  | c1 :: rest => intersectionsFor papers c1 rest ++ findTopicIntersectionsAux papers rest

/-- `findTopicIntersections` (lines 310-348): all ordered cluster pairs
with a positive gap, sorted by gap size descending (stable). -/
def findTopicIntersections (papers : List PaperRecord) (clusters : List TopicCluster) :
    List TopicIntersection :=
  stableInsertionSort (fun a b => b.gapSize ≤ a.gapSize)
    (findTopicIntersectionsAux papers clusters)

/-- `identifyEmergingTopics` (lines 565-578): topics whose papers from
the last 3 years make up more than 40% of the topic. -/
def identifyEmergingTopics (currentYear : Nat) (clusters : List TopicCluster) :
    List Str :=
  (clusters.filter (fun topic =>
    let recentPapers := topic.papers.filter (fun p =>
      match p.publicationYear with
      | some y => y ≠ 0 ∧ (y : Int) ≥ (currentYear : Int) - 3
      | none => False)
    (2 / 5 : ℚ) < (recentPapers.length : ℚ) / (topic.papers.length : ℚ))).map (·.label)

/-- `identifyStagnantTopics` (lines 583-596): topics with more than 10
papers of which less than 20% are from the last 5 years. -/
def identifyStagnantTopics (currentYear : Nat) (clusters : List TopicCluster) :
    List Str :=
  (clusters.filter (fun topic =>
    let recentPapers := topic.papers.filter (fun p =>
      match p.publicationYear with
      | some y => y ≠ 0 ∧ (y : Int) ≥ (currentYear : Int) - 5
      | none => False)
    (recentPapers.length : ℚ) / (topic.papers.length : ℚ) < (1 / 5 : ℚ)
      ∧ 10 < topic.papers.length)).map (·.label)

/-- The fixed stagnant-areas gap pushed by `analyzeTopicalGaps` when
stagnant topics exist. -/
def stagnantGap (stagnantTopics emergingTopics : List Str) : ResearchGap :=
  { id := str "topical_stagnant",
    type := GapType.topical,
    title := str "Stagnant Research Areas",
    description := str "Several research areas show declining activity and may need revitalization or new approaches.",
    severity := Severity.medium,
    evidence :=
      { underRepresentedTopics := stagnantTopics,
        citationGaps := [],
        temporalGaps := [],
        potentialImpact := 3 / 5,
        supportingData := SupportingData.stagnantData stagnantTopics emergingTopics },
    recommendations :=
      [str "Re-examine fundamental assumptions in stagnant areas",
       str "Apply new methodologies to traditional problems",
       str "Explore connections with emerging technologies",
       str "Consider interdisciplinary approaches"],
    opportunityScore := 60 }

/-- `analyzeTopicalGaps` (lines 79-145): emit one gap per
under-researched intersection (gap size above 5 and potential impact
above 0.7), then the stagnant-areas gap when stagnant topics exist. -/
def analyzeTopicalGaps (papers : List PaperRecord) (clusters : List TopicCluster)
    (currentYear : Nat) : List ResearchGap :=
  let topicIntersections := findTopicIntersections papers clusters
  let underResearched := topicIntersections.filter (fun it =>
    (5 : ℤ) < it.gapSize ∧ (7 / 10 : ℚ) < it.potentialImpact)
  let interGaps := underResearched.enum.map (fun iit =>
    { id := str "topical_" ++ natToStr iit.1,
      type := GapType.topical,
      title := str "Under-researched: " ++ iit.2.combinedLabel,
      description := str "The intersection of " ++ joinWith (str " and ") iit.2.topics
        ++ str " shows significant research potential but limited current coverage.",
      severity := if (15 : ℤ) < iit.2.gapSize then Severity.high
        else if (10 : ℤ) < iit.2.gapSize then Severity.medium else Severity.low,
      evidence :=
        { underRepresentedTopics := iit.2.topics,
          citationGaps := [],
          temporalGaps := [],
          potentialImpact := iit.2.potentialImpact,
          supportingData := SupportingData.intersectionData
            iit.2.expectedPapers iit.2.actualPapers iit.2.gapSize },
      recommendations :=
        [str "Investigate " ++ iit.2.combinedLabel ++ str " applications in real-world scenarios",
         str "Develop theoretical frameworks combining " ++ joinWith (str " and ") iit.2.topics,
         str "Conduct empirical studies bridging these research areas",
         str "Explore policy implications of " ++ iit.2.combinedLabel],
      opportunityScore := iit.2.potentialImpact * ((iit.2.gapSize : ℚ) / 20) * 100
      : ResearchGap })
  let emergingTopics := identifyEmergingTopics currentYear clusters
  let stagnantTopics := identifyStagnantTopics currentYear clusters
  interGaps ++ (if stagnantTopics ≠ [] then [stagnantGap stagnantTopics emergingTopics] else [])

end ResearchGapAnalysis

namespace ResearchGapAnalysis

theorem mem_intersectionsFor (papers : List PaperRecord) (c1 : TopicCluster)
    (it : TopicIntersection) :
    ∀ cs : List TopicCluster,
      it ∈ intersectionsFor papers c1 cs ↔
        ∃ c2 ∈ cs, it = mkIntersection papers c1 c2 ∧ 0 < it.gapSize := by
  intro cs
  induction cs with
  | nil => simp [intersectionsFor]
  | cons c2 rest ih =>
    rw [intersectionsFor]
    by_cases hpos : 0 < (mkIntersection papers c1 c2).gapSize
    · simp only [hpos, if_true, List.singleton_append, List.mem_cons, ih]
      constructor
      · rintro (rfl | ⟨c3, hc3, rfl, hp⟩)
        · exact ⟨c2, by simp, rfl, hpos⟩
        · exact ⟨c3, by simp [hc3], rfl, hp⟩
      · rintro ⟨c3, hc3, rfl, hp⟩
        rcases hc3 with rfl | hc3
        · exact Or.inl rfl
        · exact Or.inr ⟨c3, hc3, rfl, hp⟩
    · simp only [hpos, if_false, List.nil_append, ih]
      constructor
      · rintro ⟨c3, hc3, rfl, hp⟩
        exact ⟨c3, by simp [hc3], rfl, hp⟩
      · rintro ⟨c3, hc3, rfl, hp⟩
        rcases List.mem_cons.mp hc3 with rfl | hc3
        · exact absurd hp hpos
        · exact ⟨c3, hc3, rfl, hp⟩

theorem mem_findTopicIntersectionsAux (papers : List PaperRecord)
    (it : TopicIntersection) :
    ∀ cs : List TopicCluster,
      it ∈ findTopicIntersectionsAux papers cs ↔
        ∃ c1 c2, [c1, c2].Sublist cs ∧ it = mkIntersection papers c1 c2 ∧
          0 < it.gapSize := by
  intro cs
  induction cs with
  | nil =>
    simp only [findTopicIntersectionsAux, List.not_mem_nil, false_iff]
    rintro ⟨c1, c2, hsub, -⟩
    cases hsub
  | cons c rest ih =>
    rw [findTopicIntersectionsAux]
    rw [List.mem_append, mem_intersectionsFor, ih]
    constructor
    · rintro (⟨c2, hc2, rfl, hp⟩ | ⟨c1, c2, hsub, rfl, hp⟩)
      · exact ⟨c, c2, (List.singleton_sublist.mpr hc2).cons₂ c, rfl, hp⟩
      · exact ⟨c1, c2, hsub.cons c, rfl, hp⟩
    · rintro ⟨c1, c2, hsub, rfl, hp⟩
      cases hsub with
      | cons _ h2 => exact Or.inr ⟨c1, c2, h2, rfl, hp⟩
      | cons₂ _ h2 => exact Or.inl ⟨c2, List.singleton_sublist.mp h2, rfl, hp⟩

theorem mem_findTopicIntersections (papers : List PaperRecord)
    (clusters : List TopicCluster) (it : TopicIntersection) :
    it ∈ findTopicIntersections papers clusters ↔
      ∃ c1 c2, [c1, c2].Sublist clusters ∧ it = mkIntersection papers c1 c2 ∧
        0 < it.gapSize := by
  rw [findTopicIntersections, mem_stableInsertionSort,
    mem_findTopicIntersectionsAux]

end ResearchGapAnalysis

/-! ## Claim C8 -/

/-- C8: a topical gap for a cluster pair is emitted exactly when the
pair's gap size (positive part of rounded expected co-occurrence minus
the actual shared-paper count) exceeds 5 and its potential impact
exceeds 0.7; every emitted pair gap carries the bucketed severity
(high above 15, medium above 10, low otherwise) and the opportunity
score `impact * (gapSize/20) * 100`; conjuncts: (1) every reported
intersection stems from an ordered cluster pair by the stated formulas,
(2) every ordered pair with a positive gap is reported, (3) the
emission biconditional with severity and score. -/
theorem c8_topical_gap_emission (papers : List PaperRecord)
    (clusters : List TopicCluster) (currentYear : Nat) :
    (∀ it ∈ ResearchGapAnalysis.findTopicIntersections papers clusters,
      0 < it.gapSize ∧
      ∃ c1 c2, [c1, c2].Sublist clusters ∧
        it.expectedPapers = jsRound ((papers.length : ℚ)
          * ((c1.coverage / 100) * (c2.coverage / 100)) * (3 / 10)) ∧
        it.actualPapers = (c1.papers.filter
          (fun p1 => c2.papers.any (fun p2 => p2.key == p1.key))).length ∧
        it.gapSize = max 0 (it.expectedPapers - (it.actualPapers : ℤ)) ∧
        it.potentialImpact = min 1 (((c1.coverage + c2.coverage) / 200)
          * ResearchGapAnalysis.assessDomainDifference c1.label c2.label) ∧
        it.topics = [c1.label, c2.label]) ∧
    (∀ c1 c2 : TopicCluster, [c1, c2].Sublist clusters →
      0 < (ResearchGapAnalysis.mkIntersection papers c1 c2).gapSize →
      ResearchGapAnalysis.mkIntersection papers c1 c2
        ∈ ResearchGapAnalysis.findTopicIntersections papers clusters) ∧
    (∀ it ∈ ResearchGapAnalysis.findTopicIntersections papers clusters,
      (((5 : ℤ) < it.gapSize ∧ (7 / 10 : ℚ) < it.potentialImpact) ↔
        ∃ g ∈ ResearchGapAnalysis.analyzeTopicalGaps papers clusters currentYear,
          g.evidence.supportingData
            = ResearchGapAnalysis.SupportingData.intersectionData
                it.expectedPapers it.actualPapers it.gapSize ∧
          g.evidence.potentialImpact = it.potentialImpact ∧
          g.evidence.underRepresentedTopics = it.topics ∧
          g.severity = (if (15 : ℤ) < it.gapSize then ResearchGapAnalysis.Severity.high
            else if (10 : ℤ) < it.gapSize then ResearchGapAnalysis.Severity.medium
            else ResearchGapAnalysis.Severity.low) ∧
          g.opportunityScore
            = it.potentialImpact * ((it.gapSize : ℚ) / 20) * 100)) := by
  refine ⟨?_, ?_, ?_⟩
  · intro it hit
    obtain ⟨c1, c2, hsub, rfl, hp⟩ :=
      (ResearchGapAnalysis.mem_findTopicIntersections papers clusters it).mp hit
    exact ⟨hp, c1, c2, hsub, rfl, rfl, rfl, rfl, rfl⟩
  · intro c1 c2 hsub hpos
    exact (ResearchGapAnalysis.mem_findTopicIntersections papers clusters _).mpr
      ⟨c1, c2, hsub, rfl, hpos⟩
  · intro it hit
    constructor
    · intro hcond
      have hkeep : it ∈ (ResearchGapAnalysis.findTopicIntersections papers clusters).filter
          (fun it => decide ((5 : ℤ) < it.gapSize ∧ (7 / 10 : ℚ) < it.potentialImpact)) := by
        rw [List.mem_filter]
        exact ⟨hit, by simp [hcond.1, hcond.2]⟩
      have hsnd := List.enum_map_snd
        ((ResearchGapAnalysis.findTopicIntersections papers clusters).filter
          (fun it => decide ((5 : ℤ) < it.gapSize ∧ (7 / 10 : ℚ) < it.potentialImpact)))
      rw [← hsnd] at hkeep
      obtain ⟨pr, hpr, hprs⟩ := List.mem_map.mp hkeep
      rw [ResearchGapAnalysis.analyzeTopicalGaps]
      refine ⟨_, List.mem_append_left _ (List.mem_map.mpr ⟨pr, hpr, rfl⟩), ?_⟩
      rw [hprs]
      exact ⟨rfl, rfl, rfl, rfl, rfl⟩
    · rintro ⟨g, hg, hdata, himp, -, -, -⟩
      rw [ResearchGapAnalysis.analyzeTopicalGaps] at hg
      simp only [List.mem_append] at hg
      rcases hg with hg | hg
      · obtain ⟨pr, hpr, rfl⟩ := List.mem_map.mp hg
        have hmem : pr.2 ∈ (ResearchGapAnalysis.findTopicIntersections papers clusters).filter
            (fun it => decide ((5 : ℤ) < it.gapSize ∧ (7 / 10 : ℚ) < it.potentialImpact)) := by
          have hm2 := List.mem_map_of_mem Prod.snd hpr
          rwa [List.enum_map_snd] at hm2
        have hconds := (List.mem_filter.mp hmem).2
        simp only [decide_eq_true_eq] at hconds
        simp only at hdata himp
        have hgap : pr.2.gapSize = it.gapSize := by
          injection hdata with h1 h2 h3
        rw [hgap, himp] at hconds
        exact hconds
      · have hstag : g = ResearchGapAnalysis.stagnantGap
            (ResearchGapAnalysis.identifyStagnantTopics currentYear clusters)
            (ResearchGapAnalysis.identifyEmergingTopics currentYear clusters) := by
          by_cases hs : ResearchGapAnalysis.identifyStagnantTopics currentYear clusters ≠ []
          · simpa [hs] using hg
          · simp [hs] at hg
        rw [hstag] at hdata
        exact absurd hdata (by simp [ResearchGapAnalysis.stagnantGap])

/-- A concrete AI/ML cluster covering 60% of a 100-paper corpus. -/
def gapClusterA : TopicCluster :=
  { id := str "aiml", label := str "AI/ML", size := 60, papers := [],
    connections := [], coverage := 60 }

/-- A concrete Economics cluster covering 70% of the corpus. -/
def gapClusterB : TopicCluster :=
  { id := str "economics", label := str "Economics", size := 70, papers := [],
    connections := [], coverage := 70 }

/-- A 100-record corpus for the C8 witness. -/
def gapPapers : List PaperRecord :=
  List.replicate 100 (DataValidation.paperTitled (str "p"))

theorem gapPair_gapSize_pos :
    0 < (ResearchGapAnalysis.mkIntersection gapPapers gapClusterA gapClusterB).gapSize := by
  have hround : jsRound (((100 : ℕ) : ℚ) * ((60 / 100) * (70 / 100)) * (3 / 10)) = 13 := by
    rw [jsRound, Int.floor_eq_iff]
    constructor <;> norm_num
  rw [ResearchGapAnalysis.mkIntersection]
  simp only [gapPapers, gapClusterA, gapClusterB, List.length_replicate,
    List.filter_nil, List.length_nil, hround]
  norm_num

/-- Witness for C8: the completeness conjunct applied to a concrete pair
of clusters (60% and 70% coverage over 100 papers, no shared papers),
whose expected-minus-actual gap is 13. -/
theorem c8_topical_gap_emission_witness :
    0 < (ResearchGapAnalysis.mkIntersection gapPapers gapClusterA gapClusterB).gapSize ∧
    ResearchGapAnalysis.mkIntersection gapPapers gapClusterA gapClusterB
      ∈ ResearchGapAnalysis.findTopicIntersections gapPapers [gapClusterA, gapClusterB] :=
  ⟨gapPair_gapSize_pos,
   (c8_topical_gap_emission gapPapers [gapClusterA, gapClusterB] 2025).2.1
     gapClusterA gapClusterB (List.Sublist.refl _) gapPair_gapSize_pos⟩

/-! ## Author communities (`src/src/utils/authorAnalysis.ts`, continued) -/

/-- `CollaborationEdge` from `src/types/index.ts`. -/
structure CollaborationEdge where
  source : Str
  target : Str
  weight : Nat
deriving DecidableEq, Repr

namespace AuthorAnalysis

/-- `AuthorProfile` from `src/src/utils/authorAnalysis.ts` (lines 7-20). -/
structure AuthorProfile where
  id : Str
  name : Str
  cleanName : Str
  paperCount : Nat
  papers : List PaperRecord
  collaborators : List Str
  primaryTopics : List Str
  influence : ℚ
  firstPublication : Option Nat
  lastPublication : Option Nat
  yearSpan : Nat
  averagePapersPerYear : ℚ

/-- `AuthorCommunity` from `src/src/utils/authorAnalysis.ts` (lines 29-37). -/
structure AuthorCommunity where
  id : Str
  name : Str
  members : List Str
  centralAuthors : List Str
  primaryTopics : List Str
  paperCount : Nat
  collaborationStrength : ℚ

/-- Read a key's neighbour set from the adjacency map
(`adjacencyList.get(k)` with a missing key read as the empty set). -/
def adjLookup (adj : List (Str × List Str)) (k : Str) : List Str :=
  (adj.lookup k).getD []

/-- Ensure the adjacency map has an entry for `k`
(`if (!adjacencyList.has(k)) adjacencyList.set(k, new Set())`); JS Map
insertion order appends new keys at the end. -/
def adjEnsure (adj : List (Str × List Str)) (k : Str) : List (Str × List Str) :=
  if (adj.lookup k).isSome then adj else adj ++ [(k, [])]

/-- `adjacencyList.get(k).add(v)`: JS Set insertion appends a new
element at the end and ignores a present one. -/
def adjAddNeighbor (adj : List (Str × List Str)) (k v : Str) :
    List (Str × List Str) :=
  adj.map (fun kv => if kv.1 == k then (kv.1, if v ∈ kv.2 then kv.2 else kv.2 ++ [v]) else kv)

/-- The adjacency-building `forEach` of `detectAuthorCommunities`
(lines 312-324). -/
def buildAdjacency (collaborations : List CollaborationEdge) :
    List (Str × List Str) :=
  collaborations.foldl (fun adj e =>
    adjAddNeighbor (adjAddNeighbor (adjEnsure (adjEnsure adj e.source) e.target)
      e.source e.target) e.target e.source) []

/-- Total size of all neighbour sets (used to bound the BFS fuel). -/
def adjTotal (adj : List (Str × List Str)) : Nat :=
  (adj.map (fun kv => kv.2.length)).sum

/-- Every name occurring in the adjacency map. -/
def adjUniv (adj : List (Str × List Str)) : List Str :=
  adj.map (fun kv => kv.1) ++ (adj.map (fun kv => kv.2)).flatten

/-- Fuel that provably exceeds the number of iterations of the BFS
while-loop on any input (see `findConnectedComponentAux_spec`). -/
def bfsFuel (adj : List (Str × List Str)) : Nat :=
  ((adjUniv adj).length + 1) * (adjTotal adj + 1) + 2

/-- The while-loop of `findConnectedComponent` (lines 383-408), indexed
by fuel: pop the queue head; skip it when processed, otherwise mark it
processed, add it to the component and enqueue its unprocessed
neighbours.  `bfsFuel` makes the fuel-exhaustion branch unreachable. -/
def findConnectedComponentAux (adj : List (Str × List Str)) :
    Nat → List Str → List Str → List Str → List Str × List Str
  | 0, _, processed, component => (component, processed)
  | _ + 1, [], processed, component => (component, processed)
  | fuel + 1, current :: queue, processed, component =>
    if current ∈ processed then
      findConnectedComponentAux adj fuel queue processed component
    else
      findConnectedComponentAux adj fuel
        (queue ++ (adjLookup adj current).filter (fun n => n ∉ processed ++ [current]))
        (processed ++ [current])
        (if current ∈ component then component else component ++ [current])

/-- `findConnectedComponent` (lines 383-408): breadth-first traversal
from `startAuthor`; returns the component together with the updated
shared `processed` set. -/
def findConnectedComponent (adj : List (Str × List Str)) (startAuthor : Str)
    (processed : List Str) : List Str × List Str :=
  findConnectedComponentAux adj (bfsFuel adj) [startAuthor] processed []

/-- `calculateCommunityCollaborationStrength` (lines 413-427): internal
edge count over all possible member pairs. -/
def calculateCommunityCollaborationStrength (members : List Str)
    (collaborations : List CollaborationEdge) : ℚ :=
  let internalCollaborations := collaborations.filter (fun e =>
    e.source ∈ members ∧ e.target ∈ members)
  let totalPossibleEdges : ℚ := ((members.length * (members.length - 1) : ℕ) : ℚ) / 2
  if 0 < totalPossibleEdges then (internalCollaborations.length : ℚ) / totalPossibleEdges
  else 0

/-- Insertion-ordered tallying (JS `Map` counting loop). -/
def talliesAux : List Str → List (Str × Nat) → List (Str × Nat)
  | [], acc => acc
  | t :: rest, acc =>
    if (acc.lookup t).isSome then
      talliesAux rest (acc.map (fun kv => if kv.1 == t then (kv.1, kv.2 + 1) else kv))
    else talliesAux rest (acc ++ [(t, 1)])

/-- Count occurrences keeping first-seen order (JS `Map` iteration). -/
def tallies (l : List Str) : List (Str × Nat) := talliesAux l []

/-- The community record pushed by `detectAuthorCommunities`
(lines 332-374) for a discovered component; `idx` is the number of
communities pushed so far plus one.  `Math.floor(length * 0.3)` is
modelled as `length * 3 / 10` in exact arithmetic. -/
def mkCommunity (authors : List AuthorProfile) (adj : List (Str × List Str))
    (collaborations : List CollaborationEdge) (communityAuthors : List Str)
    (idx : Nat) : AuthorCommunity :=
  let communityProfiles := communityAuthors.filterMap (fun name =>
    authors.find? (fun a => a.cleanName == name))
  let totalPapers := (communityProfiles.map (fun p => p.paperCount)).sum
  let allTopics := (communityProfiles.map (fun p => p.primaryTopics)).flatten
  let primaryTopics :=
    ((stableInsertionSort (fun x y => y.2 ≤ x.2) (tallies allTopics)).take 3).map
      (fun kv => kv.1)
  let centralAuthors :=
    ((stableInsertionSort (fun x y => y.2 ≤ x.2)
        (communityAuthors.map (fun a => (a, (adjLookup adj a).length)))).take
      (max 1 (communityAuthors.length * 3 / 10))).map (fun kv => kv.1)
  { id := str "community_" ++ natToStr idx,
    name := str "Research Group " ++ natToStr idx,
    members := communityAuthors,
    centralAuthors := centralAuthors,
    primaryTopics := primaryTopics,
    paperCount := totalPapers,
    collaborationStrength :=
      calculateCommunityCollaborationStrength communityAuthors collaborations }

/-- The `forEach` loop of `detectAuthorCommunities` (lines 327-375),
threading the shared `processed` set and the number of communities
pushed so far (which feeds the `community_${n}` ids). -/
def detectAuthorCommunitiesAux (authors : List AuthorProfile)
    (adj : List (Str × List Str)) (collaborations : List CollaborationEdge) :
    List AuthorProfile → List Str → Nat → List AuthorCommunity
  | [], _, _ => []
  | a :: rest, processed, count =>
    if a.cleanName ∈ processed then
      detectAuthorCommunitiesAux authors adj collaborations rest processed count
    else if 3 ≤ (findConnectedComponent adj a.cleanName processed).1.length then
      mkCommunity authors adj collaborations
          (findConnectedComponent adj a.cleanName processed).1 (count + 1)
        :: detectAuthorCommunitiesAux authors adj collaborations rest
          (findConnectedComponent adj a.cleanName processed).2 (count + 1)
    else
      detectAuthorCommunitiesAux authors adj collaborations rest
        (findConnectedComponent adj a.cleanName processed).2 count

/-- `detectAuthorCommunities` from `src/src/utils/authorAnalysis.ts`
(lines 304-378): connected components of the collaboration graph,
kept only at size at least 3, sorted by paper count descending. -/
def detectAuthorCommunities (authors : List AuthorProfile)
    (collaborations : List CollaborationEdge) : List AuthorCommunity :=
  stableInsertionSort (fun x y => y.paperCount ≤ x.paperCount)
    (detectAuthorCommunitiesAux authors (buildAdjacency collaborations) collaborations
      authors [] 0)

end AuthorAnalysis

namespace AuthorAnalysis

/-- A successful lookup returns one of the stored neighbour sets. -/
lemma lookup_mem_values {adj : List (Str × List Str)} {k : Str} {l : List Str}
    (h : adj.lookup k = some l) : l ∈ adj.map (fun kv => kv.2) := by
  induction adj with
  | nil => simp [List.lookup] at h
  | cons p rest ih =>
    obtain ⟨pk, pv⟩ := p
    by_cases hk : k = pk
    · subst hk
      simp [List.lookup_cons] at h
      simp [h]
    · rw [List.lookup_cons] at h
      have hbeq : (k == pk) = false := by simp [hk]
      rw [hbeq] at h
      exact List.mem_cons_of_mem _ (ih h)

/-- Each neighbour set is no larger than the total adjacency size. -/
lemma adjLookup_length_le_adjTotal (adj : List (Str × List Str)) (k : Str) :
    (adjLookup adj k).length ≤ adjTotal adj := by
  unfold adjLookup adjTotal
  cases h : adj.lookup k with
  | none => simp
  | some l =>
    simp only [Option.getD_some]
    have hm2 : l.length ∈ adj.map (fun kv => kv.2.length) := by
      have hmm : adj.map (fun kv => kv.2.length) = (adj.map (fun kv => kv.2)).map List.length := by
        rw [List.map_map]; rfl
      rw [hmm]
      exact List.mem_map_of_mem List.length (lookup_mem_values h)
    exact List.single_le_sum (fun x _ => Nat.zero_le x) _ hm2

/-- Every neighbour occurs in `adjUniv`. -/
lemma mem_adjUniv_of_mem_adjLookup {adj : List (Str × List Str)} {v n : Str}
    (h : n ∈ adjLookup adj v) : n ∈ adjUniv adj := by
  unfold adjLookup at h
  cases hl : adj.lookup v with
  | none => rw [hl] at h; simp at h
  | some l =>
    rw [hl] at h
    simp only [Option.getD_some] at h
    refine List.mem_append_right _ ?_
    rw [List.mem_flatten]
    exact ⟨l, lookup_mem_values hl, h⟩

/-- `adjEnsure` makes its key present. -/
lemma lookup_adjEnsure_self (adj : List (Str × List Str)) (k : Str) :
    ((adjEnsure adj k).lookup k).isSome = true := by
  unfold adjEnsure
  split
  · assumption
  · rename_i hnone
    rw [List.lookup_append]
    cases h : adj.lookup k with
    | some l => rw [h] at hnone; simp at hnone
    | none => simp [List.lookup_cons]

/-- `adjEnsure` keeps every present key present. -/
lemma lookup_adjEnsure_isSome {adj : List (Str × List Str)} {k' : Str} (k : Str)
    (h : (adj.lookup k').isSome = true) :
    ((adjEnsure adj k).lookup k').isSome = true := by
  unfold adjEnsure
  split
  · exact h
  · rw [List.lookup_append]
    cases hl : adj.lookup k' with
    | none => rw [hl] at h; simp at h
    | some l => simp [hl]

/-- `adjEnsure` does not change any neighbour set (up to membership). -/
lemma mem_adjLookup_adjEnsure {adj : List (Str × List Str)} {k k' n : Str} :
    n ∈ adjLookup (adjEnsure adj k) k' ↔ n ∈ adjLookup adj k' := by
  unfold adjEnsure
  split
  · exact Iff.rfl
  · unfold adjLookup
    rw [List.lookup_append]
    cases hl : adj.lookup k' with
    | some l => simp
    | none =>
      simp only [Option.none_or]
      by_cases hk : k' = k
      · subst hk
        simp [List.lookup_cons]
      · have hbeq : (k' == k) = false := by simp [hk]
        simp [List.lookup_cons, hbeq, List.lookup]

/-- `adjAddNeighbor` keeps the key set (hence `isSome` of lookups). -/
lemma lookup_adjAddNeighbor_isSome (adj : List (Str × List Str)) (k v k' : Str) :
    ((adjAddNeighbor adj k v).lookup k').isSome = (adj.lookup k').isSome := by
  induction adj with
  | nil => rfl
  | cons p rest ih =>
    obtain ⟨pk, pv⟩ := p
    simp only [adjAddNeighbor, List.map_cons] at ih ⊢
    by_cases hpk : pk = k
    · rw [if_pos (show (pk == k) = true by simp [hpk]), List.lookup_cons, List.lookup_cons]
      cases hb : k' == pk
      · exact ih
      · rfl
    · rw [if_neg (show ¬ (pk == k) = true by simp [hpk]), List.lookup_cons, List.lookup_cons]
      cases hb : k' == pk
      · exact ih
      · rfl

/-- Membership in a neighbour set after `adjAddNeighbor`. -/
lemma mem_adjLookup_adjAddNeighbor {adj : List (Str × List Str)} {k v k' n : Str} :
    n ∈ adjLookup (adjAddNeighbor adj k v) k' ↔
      n ∈ adjLookup adj k' ∨ (k' = k ∧ n = v ∧ (adj.lookup k).isSome = true) := by
  induction adj with
  | nil => simp [adjAddNeighbor, adjLookup, List.lookup]
  | cons p rest ih =>
    obtain ⟨pk, pv⟩ := p
    simp only [adjAddNeighbor, adjLookup, List.map_cons] at ih ⊢
    by_cases hpk : pk = k
    · subst hpk
      rw [if_pos (show (pk == pk) = true by simp), List.lookup_cons, List.lookup_cons,
        List.lookup_cons, show (pk == pk) = true by simp]
      cases hb : k' == pk
      · have hk' : ¬ k' = pk := by simpa using hb
        simp only [hk', false_and, or_false] at ih ⊢
        exact ih
      · have hk' : k' = pk := by simpa using hb
        simp only [Option.getD_some, Option.isSome_some, hk', true_and, and_true]
        by_cases hv : v ∈ pv
        · rw [if_pos hv]
          constructor
          · exact fun h => Or.inl h
          · rintro (h | rfl)
            · exact h
            · exact hv
        · rw [if_neg hv]
          simp [List.mem_append]
    · have hkpk : ¬ k = pk := fun h => hpk h.symm
      rw [if_neg (show ¬ (pk == k) = true by simp [hpk]), List.lookup_cons, List.lookup_cons,
        List.lookup_cons, show (k == pk) = false by simpa using hkpk]
      cases hb : k' == pk
      · exact ih
      · have hk' : k' = pk := by simpa using hb
        have hne : ¬ k' = k := by rw [hk']; exact fun h => hkpk h.symm
        simp [hne]

end AuthorAnalysis

namespace AuthorAnalysis

/-- Effect of processing one edge on neighbour-set membership. -/
lemma mem_adjLookup_step {adj : List (Str × List Str)} {e : CollaborationEdge} {v n : Str} :
    n ∈ adjLookup (adjAddNeighbor (adjAddNeighbor (adjEnsure (adjEnsure adj e.source) e.target)
        e.source e.target) e.target e.source) v ↔
      n ∈ adjLookup adj v ∨ (e.source = v ∧ e.target = n) ∨ (e.target = v ∧ e.source = n) := by
  have h1 : ((adjEnsure (adjEnsure adj e.source) e.target).lookup e.source).isSome = true :=
    lookup_adjEnsure_isSome _ (lookup_adjEnsure_self adj e.source)
  have h3 : ((adjAddNeighbor (adjEnsure (adjEnsure adj e.source) e.target) e.source
      e.target).lookup e.target).isSome = true := by
    rw [lookup_adjAddNeighbor_isSome]
    exact lookup_adjEnsure_self _ _
  rw [mem_adjLookup_adjAddNeighbor, mem_adjLookup_adjAddNeighbor, mem_adjLookup_adjEnsure,
    mem_adjLookup_adjEnsure, h3, h1]
  simp only [and_true]
  constructor
  · rintro ((h | ⟨rfl, rfl⟩) | ⟨rfl, rfl⟩)
    · exact Or.inl h
    · exact Or.inr (Or.inl ⟨rfl, rfl⟩)
    · exact Or.inr (Or.inr ⟨rfl, rfl⟩)
  · rintro (h | ⟨rfl, rfl⟩ | ⟨rfl, rfl⟩)
    · exact Or.inl (Or.inl h)
    · exact Or.inl (Or.inr ⟨rfl, rfl⟩)
    · exact Or.inr ⟨rfl, rfl⟩

/-- Neighbour-set membership across the adjacency-building fold. -/
lemma mem_adjLookup_foldl (v n : Str) (es : List CollaborationEdge) :
    ∀ adj : List (Str × List Str),
      (n ∈ adjLookup (es.foldl (fun adj e =>
          adjAddNeighbor (adjAddNeighbor (adjEnsure (adjEnsure adj e.source) e.target)
            e.source e.target) e.target e.source) adj) v ↔
        n ∈ adjLookup adj v ∨
          ∃ e ∈ es, (e.source = v ∧ e.target = n) ∨ (e.target = v ∧ e.source = n)) := by
  induction es with
  | nil => intro adj; simp
  | cons e es ih =>
    intro adj
    rw [List.foldl_cons, ih, mem_adjLookup_step]
    constructor
    · rintro ((h | h) | h)
      · exact Or.inl h
      · exact Or.inr ⟨e, List.mem_cons_self e es, h⟩
      · obtain ⟨e2, he2, hp⟩ := h
        exact Or.inr ⟨e2, List.mem_cons_of_mem e he2, hp⟩
    · rintro (h | ⟨e2, he2, hp⟩)
      · exact Or.inl (Or.inl h)
      · rcases List.mem_cons.mp he2 with rfl | he3
        · exact Or.inl (Or.inr hp)
        · exact Or.inr ⟨e2, he3, hp⟩

/-- Characterization of the built adjacency list: `n` is a neighbour of
`v` exactly when some collaboration edge joins them. -/
lemma mem_adjLookup_buildAdjacency {collabs : List CollaborationEdge} {v n : Str} :
    n ∈ adjLookup (buildAdjacency collabs) v ↔
      ∃ e ∈ collabs, (e.source = v ∧ e.target = n) ∨ (e.target = v ∧ e.source = n) := by
  unfold buildAdjacency
  rw [mem_adjLookup_foldl]
  simp [adjLookup, List.lookup]

end AuthorAnalysis

namespace AuthorAnalysis

/-- One-step unfolding of the BFS loop on a non-empty queue. -/
lemma findConnectedComponentAux_cons (adj : List (Str × List Str)) (m : Nat)
    (current : Str) (rest processed component : List Str) :
    findConnectedComponentAux adj (m + 1) (current :: rest) processed component
      = if current ∈ processed then findConnectedComponentAux adj m rest processed component
        else findConnectedComponentAux adj m
          (rest ++ (adjLookup adj current).filter (fun n => n ∉ processed ++ [current]))
          (processed ++ [current])
          (if current ∈ component then component else component ++ [current]) := rfl

/-- The BFS appends the same block to `component` and to `processed`. -/
lemma fcc_delta (adj : List (Str × List Str)) :
    ∀ (fuel : Nat) (queue processed component : List Str),
      (∀ x ∈ component, x ∈ processed) →
      ∃ d : List Str,
        (findConnectedComponentAux adj fuel queue processed component).1 = component ++ d ∧
        (findConnectedComponentAux adj fuel queue processed component).2 = processed ++ d := by
  intro fuel
  induction fuel with
  | zero =>
    intro queue processed component hsub
    exact ⟨[], by simp [findConnectedComponentAux], by simp [findConnectedComponentAux]⟩
  | succ m ih =>
    intro queue processed component hsub
    cases queue with
    | nil =>
      exact ⟨[], by simp [findConnectedComponentAux], by simp [findConnectedComponentAux]⟩
    | cons current rest =>
      rw [findConnectedComponentAux_cons]
      by_cases hc : current ∈ processed
      · rw [if_pos hc]
        exact ih rest processed component hsub
      · rw [if_neg hc]
        have hcc : current ∉ component := fun h => hc (hsub _ h)
        rw [if_neg hcc]
        have hsub2 : ∀ x ∈ component ++ [current], x ∈ processed ++ [current] := by
          intro x hx
          rcases List.mem_append.mp hx with h | h
          · exact List.mem_append_left _ (hsub x h)
          · exact List.mem_append_right _ h
        obtain ⟨d, h1, h2⟩ := ih
          (rest ++ (adjLookup adj current).filter (fun n => n ∉ processed ++ [current]))
          (processed ++ [current]) (component ++ [current]) hsub2
        refine ⟨current :: d, ?_, ?_⟩
        · rw [h1]; simp
        · rw [h2]; simp

/-- Everything the BFS puts in the component comes from a set that is
closed under the adjacency relation and contains the queue. -/
lemma fcc_sound (adj : List (Str × List Str)) (S : List Str)
    (hS : ∀ v ∈ S, ∀ n ∈ adjLookup adj v, n ∈ S) :
    ∀ (fuel : Nat) (queue processed component : List Str),
      (∀ x ∈ queue, x ∈ S) → (∀ x ∈ component, x ∈ S) →
      ∀ x ∈ (findConnectedComponentAux adj fuel queue processed component).1, x ∈ S := by
  intro fuel
  induction fuel with
  | zero =>
    intro queue processed component hq hcomp x hx
    exact hcomp x hx
  | succ m ih =>
    intro queue processed component hq hcomp
    cases queue with
    | nil => exact fun x hx => hcomp x hx
    | cons current rest =>
      rw [findConnectedComponentAux_cons]
      by_cases hc : current ∈ processed
      · rw [if_pos hc]
        exact ih rest processed component (fun y hy => hq y (List.mem_cons_of_mem _ hy)) hcomp
      · rw [if_neg hc]
        refine ih _ _ _ ?_ ?_
        · intro y hy
          rcases List.mem_append.mp hy with h | h
          · exact hq y (List.mem_cons_of_mem _ h)
          · exact hS current (hq current (List.mem_cons_self _ _)) y (List.mem_of_mem_filter h)
        · intro y hy
          by_cases hcur : current ∈ component
          · rw [if_pos hcur] at hy; exact hcomp y hy
          · rw [if_neg hcur] at hy
            rcases List.mem_append.mp hy with h | h
            · exact hcomp y h
            · rw [List.mem_singleton] at h
              subst h
              exact hq y (List.mem_cons_self _ _)

/-- The component list built by the BFS has no duplicates. -/
lemma fcc_nodup (adj : List (Str × List Str)) :
    ∀ (fuel : Nat) (queue processed component : List Str),
      component.Nodup →
      (findConnectedComponentAux adj fuel queue processed component).1.Nodup := by
  intro fuel
  induction fuel with
  | zero => intro q p c h; exact h
  | succ m ih =>
    intro queue processed component h
    cases queue with
    | nil => exact h
    | cons current rest =>
      rw [findConnectedComponentAux_cons]
      by_cases hc : current ∈ processed
      · rw [if_pos hc]
        exact ih _ _ _ h
      · rw [if_neg hc]
        refine ih _ _ _ ?_
        by_cases hcur : current ∈ component
        · rw [if_pos hcur]; exact h
        · rw [if_neg hcur]
          rw [List.nodup_append]
          exact ⟨h, List.nodup_singleton _, List.disjoint_singleton.mpr hcur⟩

/-- With enough fuel, the BFS drains its queue: every queued or processed
name ends up processed, and the final processed set is closed under the
adjacency relation. -/
lemma fcc_complete (adj : List (Str × List Str)) (univ : List Str)
    (hcl : ∀ v, ∀ n ∈ adjLookup adj v, n ∈ univ) :
    ∀ (fuel : Nat) (queue processed component : List Str),
      (∀ x ∈ queue, x ∈ univ) →
      (∀ p ∈ processed, ∀ n ∈ adjLookup adj p, n ∈ processed ∨ n ∈ queue) →
      (univ.filter (fun x => x ∉ processed)).length * (adjTotal adj + 1) + queue.length ≤ fuel →
      (∀ x ∈ queue, x ∈ (findConnectedComponentAux adj fuel queue processed component).2) ∧
      (∀ x ∈ processed, x ∈ (findConnectedComponentAux adj fuel queue processed component).2) ∧
      (∀ p ∈ (findConnectedComponentAux adj fuel queue processed component).2,
        ∀ n ∈ adjLookup adj p, n ∈ (findConnectedComponentAux adj fuel queue processed component).2) := by
  intro fuel
  induction fuel with
  | zero =>
    intro queue processed component hq hinv hmeas
    have hq0 : queue = [] := by
      cases queue with
      | nil => rfl
      | cons a l => simp [List.length_cons] at hmeas
    subst hq0
    refine ⟨by simp, fun x hx => hx, ?_⟩
    intro p hp n hn
    rcases hinv p hp n hn with h | h
    · exact h
    · simp at h
  | succ m ih =>
    intro queue processed component hq hinv hmeas
    cases queue with
    | nil =>
      refine ⟨by simp, fun x hx => hx, ?_⟩
      intro p hp n hn
      rcases hinv p hp n hn with h | h
      · exact h
      · simp at h
    | cons current rest =>
      rw [findConnectedComponentAux_cons]
      by_cases hc : current ∈ processed
      · rw [if_pos hc]
        have hmeas2 : (univ.filter (fun x => x ∉ processed)).length * (adjTotal adj + 1)
            + rest.length ≤ m := by
          simp only [List.length_cons] at hmeas
          omega
        have hinv2 : ∀ p ∈ processed, ∀ n ∈ adjLookup adj p, n ∈ processed ∨ n ∈ rest := by
          intro p hp n hn
          rcases hinv p hp n hn with h | h
          · exact Or.inl h
          · rcases List.mem_cons.mp h with rfl | h2
            · exact Or.inl hc
            · exact Or.inr h2
        obtain ⟨ha, hb, hcc⟩ := ih rest processed component
          (fun y hy => hq y (List.mem_cons_of_mem _ hy)) hinv2 hmeas2
        refine ⟨?_, hb, hcc⟩
        intro x hx
        rcases List.mem_cons.mp hx with rfl | hx2
        · exact hb x hc
        · exact ha x hx2
      · rw [if_neg hc]
        have hq2univ : ∀ x ∈ rest ++ (adjLookup adj current).filter
            (fun n => n ∉ processed ++ [current]), x ∈ univ := by
          intro y hy
          rcases List.mem_append.mp hy with h | h
          · exact hq y (List.mem_cons_of_mem _ h)
          · exact hcl current y (List.mem_of_mem_filter h)
        have hinv2 : ∀ p ∈ processed ++ [current], ∀ n ∈ adjLookup adj p,
            n ∈ processed ++ [current] ∨
            n ∈ rest ++ (adjLookup adj current).filter (fun n => n ∉ processed ++ [current]) := by
          intro p hp n hn
          rcases List.mem_append.mp hp with hp1 | hp1
          · rcases hinv p hp1 n hn with h | h
            · exact Or.inl (List.mem_append_left _ h)
            · rcases List.mem_cons.mp h with rfl | h2
              · exact Or.inl (List.mem_append_right _ (List.mem_singleton.mpr rfl))
              · exact Or.inr (List.mem_append_left _ h2)
          · rw [List.mem_singleton] at hp1
            subst hp1
            by_cases hnp : n ∈ processed ++ [p]
            · exact Or.inl hnp
            · refine Or.inr (List.mem_append_right _ ?_)
              exact List.mem_filter.mpr ⟨hn, by simpa using hnp⟩
        have hmeas2 : (univ.filter (fun x => x ∉ processed ++ [current])).length
              * (adjTotal adj + 1)
            + (rest ++ (adjLookup adj current).filter
                (fun n => n ∉ processed ++ [current])).length ≤ m := by
          have hkey : (univ.filter (fun x => x ∉ processed ++ [current])).length + 1 ≤
              (univ.filter (fun x => x ∉ processed)).length := by
            have h1 : univ.filter (fun x => x ∉ processed ++ [current]) =
                (univ.filter (fun x => x ∉ processed)).filter (fun x => ¬ x = current) := by
              rw [List.filter_filter]
              apply List.filter_congr
              intro x _
              simp [List.mem_append, List.mem_singleton, not_or, Bool.and_comm]
            have h2 : ((univ.filter (fun x => x ∉ processed)).filter
                  (fun x => ¬ x = current)).length <
                (univ.filter (fun x => x ∉ processed)).length := by
              rw [List.length_filter_lt_length_iff_exists]
              refine ⟨current, ?_, by simp⟩
              exact List.mem_filter.mpr
                ⟨hq current (List.mem_cons_self _ _), by simpa using hc⟩
            rw [h1]
            omega
          have hpush : ((adjLookup adj current).filter
              (fun n => n ∉ processed ++ [current])).length ≤ adjTotal adj :=
            le_trans (List.length_filter_le _ _) (adjLookup_length_le_adjTotal adj current)
          have hmul : ((univ.filter (fun x => x ∉ processed ++ [current])).length + 1)
                * (adjTotal adj + 1) ≤
              (univ.filter (fun x => x ∉ processed)).length * (adjTotal adj + 1) :=
            Nat.mul_le_mul_right _ hkey
          rw [Nat.succ_mul] at hmul
          simp only [List.length_append, List.length_cons] at hmeas ⊢
          omega
        obtain ⟨ha, hb, hcc⟩ := ih _ _ _ hq2univ hinv2 hmeas2
        refine ⟨?_, ?_, hcc⟩
        · intro x hx
          rcases List.mem_cons.mp hx with rfl | hx2
          · exact hb x (List.mem_append_right _ (List.mem_singleton.mpr rfl))
          · exact ha x (List.mem_append_left _ hx2)
        · intro x hx
          exact hb x (List.mem_append_left _ hx)

end AuthorAnalysis

namespace AuthorAnalysis

/-- Claim-side shorthand: the edge `e` joins the unordered pair `{x, y}`. -/
def connects (e : CollaborationEdge) (x y : Str) : Prop :=
  (e.source = x ∧ e.target = y) ∨ (e.source = y ∧ e.target = x)

/-- Unfolding of the detection loop on an empty author list. -/
lemma detectAuthorCommunitiesAux_nil (authors : List AuthorProfile)
    (adj : List (Str × List Str)) (collabs : List CollaborationEdge)
    (processed : List Str) (count : Nat) :
    detectAuthorCommunitiesAux authors adj collabs [] processed count = [] := rfl

/-- Unfolding of the detection loop on a non-empty author list. -/
lemma detectAuthorCommunitiesAux_cons (authors : List AuthorProfile)
    (adj : List (Str × List Str)) (collabs : List CollaborationEdge)
    (aP : AuthorProfile) (rest : List AuthorProfile) (processed : List Str) (count : Nat) :
    detectAuthorCommunitiesAux authors adj collabs (aP :: rest) processed count =
      if aP.cleanName ∈ processed then
        detectAuthorCommunitiesAux authors adj collabs rest processed count
      else if 3 ≤ (findConnectedComponent adj aP.cleanName processed).1.length then
        mkCommunity authors adj collabs
            (findConnectedComponent adj aP.cleanName processed).1 (count + 1)
          :: detectAuthorCommunitiesAux authors adj collabs rest
            (findConnectedComponent adj aP.cleanName processed).2 (count + 1)
      else
        detectAuthorCommunitiesAux authors adj collabs rest
          (findConnectedComponent adj aP.cleanName processed).2 count := rfl

/-- Every community the detection loop emits has at least 3 members. -/
lemma detectAuthorCommunitiesAux_min_size (authors : List AuthorProfile)
    (adj : List (Str × List Str)) (collabs : List CollaborationEdge) :
    ∀ (lst : List AuthorProfile) (processed : List Str) (count : Nat),
      ∀ comm ∈ detectAuthorCommunitiesAux authors adj collabs lst processed count,
        3 ≤ comm.members.length := by
  intro lst
  induction lst with
  | nil =>
    intro processed count comm h
    rw [detectAuthorCommunitiesAux_nil] at h
    simp at h
  | cons aP rest ih =>
    intro processed count comm h
    rw [detectAuthorCommunitiesAux_cons] at h
    by_cases h1 : aP.cleanName ∈ processed
    · rw [if_pos h1] at h
      exact ih _ _ _ h
    · rw [if_neg h1] at h
      by_cases h2 : 3 ≤ (findConnectedComponent adj aP.cleanName processed).1.length
      · rw [if_pos h2] at h
        rcases List.mem_cons.mp h with rfl | h3
        · exact h2
        · exact ih _ _ _ h3
      · rw [if_neg h2] at h
        exact ih _ _ _ h

end AuthorAnalysis

section C7
open AuthorAnalysis

/-- **C7.** For a collaboration triangle over exactly three distinct
cleaned author names (every edge joins one of the three pairs, each pair
is joined by at least one of the exactly three edges),
`detectAuthorCommunities` returns exactly one community, whose 3 members
are precisely the three names and whose `collaborationStrength` is
exactly 1; and in general every returned community has at least 3
members. -/
theorem c7_triangle_single_community
    (authors : List AuthorProfile) (collabs : List CollaborationEdge) (a b c : Str)
    (hnames : authors.map AuthorProfile.cleanName = [a, b, c])
    (hab : a ≠ b) (hac : a ≠ c) (hbc : b ≠ c)
    (hconn : ∀ e ∈ collabs, connects e a b ∨ connects e a c ∨ connects e b c)
    (hcab : ∃ e ∈ collabs, connects e a b)
    (hcac : ∃ e ∈ collabs, connects e a c)
    (hcbc : ∃ e ∈ collabs, connects e b c)
    (hlen : collabs.length = 3) :
    (∃ comm, detectAuthorCommunities authors collabs = [comm] ∧
      comm.members.length = 3 ∧
      (∀ x, x ∈ comm.members ↔ (x = a ∨ x = b ∨ x = c)) ∧
      comm.collaborationStrength = 1) ∧
    (∀ (authors2 : List AuthorProfile) (collabs2 : List CollaborationEdge),
      ∀ comm2 ∈ detectAuthorCommunities authors2 collabs2, 3 ≤ comm2.members.length) := by
  have hFC : findConnectedComponent (buildAdjacency collabs) a []
      = findConnectedComponentAux (buildAdjacency collabs)
          (bfsFuel (buildAdjacency collabs)) [a] [] [] := rfl
  have hendpoints : ∀ e ∈ collabs,
      (e.source = a ∨ e.source = b ∨ e.source = c) ∧
      (e.target = a ∨ e.target = b ∨ e.target = c) := by
    intro e he
    rcases hconn e he with (⟨h1, h2⟩ | ⟨h1, h2⟩) | (⟨h1, h2⟩ | ⟨h1, h2⟩) | (⟨h1, h2⟩ | ⟨h1, h2⟩) <;>
      simp [h1, h2]
  have hSclosed : ∀ v ∈ ([a, b, c] : List Str),
      ∀ n ∈ adjLookup (buildAdjacency collabs) v, n ∈ ([a, b, c] : List Str) := by
    intro v _ n hn
    obtain ⟨e, he, hp⟩ := mem_adjLookup_buildAdjacency.mp hn
    have h2 := hendpoints e he
    rcases hp with ⟨hv2, hn2⟩ | ⟨hv2, hn2⟩
    · rw [List.mem_cons, List.mem_cons, List.mem_singleton, ← hn2]
      exact h2.2
    · rw [List.mem_cons, List.mem_cons, List.mem_singleton, ← hn2]
      exact h2.1
  have hbadj : b ∈ adjLookup (buildAdjacency collabs) a := by
    apply mem_adjLookup_buildAdjacency.mpr
    obtain ⟨e, he, hp⟩ := hcab
    rcases hp with ⟨h1, h2⟩ | ⟨h1, h2⟩
    · exact ⟨e, he, Or.inl ⟨h1, h2⟩⟩
    · exact ⟨e, he, Or.inr ⟨h2, h1⟩⟩
  have hcadj : c ∈ adjLookup (buildAdjacency collabs) a := by
    apply mem_adjLookup_buildAdjacency.mpr
    obtain ⟨e, he, hp⟩ := hcac
    rcases hp with ⟨h1, h2⟩ | ⟨h1, h2⟩
    · exact ⟨e, he, Or.inl ⟨h1, h2⟩⟩
    · exact ⟨e, he, Or.inr ⟨h2, h1⟩⟩
  obtain ⟨d, hd1, hd2⟩ := fcc_delta (buildAdjacency collabs)
    (bfsFuel (buildAdjacency collabs)) [a] [] [] (by simp)
  have hr12 : (findConnectedComponent (buildAdjacency collabs) a []).1
      = (findConnectedComponent (buildAdjacency collabs) a []).2 := by
    rw [hFC, hd1, hd2]
  obtain ⟨hq2, hp2, hclosure⟩ := fcc_complete (buildAdjacency collabs)
    (a :: adjUniv (buildAdjacency collabs))
    (fun v n hn => List.mem_cons_of_mem _ (mem_adjUniv_of_mem_adjLookup hn))
    (bfsFuel (buildAdjacency collabs)) [a] [] []
    (fun x hx => by rw [List.mem_singleton] at hx; subst hx; exact List.mem_cons_self _ _)
    (fun p hp => absurd hp (List.not_mem_nil p))
    (by
      have hfil : (a :: adjUniv (buildAdjacency collabs)).filter
          (fun x => x ∉ ([] : List Str)) = a :: adjUniv (buildAdjacency collabs) := by
        simp
      rw [hfil]
      simp only [List.length_cons, List.length_nil]
      unfold bfsFuel
      omega)
  have hain : a ∈ (findConnectedComponent (buildAdjacency collabs) a []).2 := by
    rw [hFC]
    exact hq2 a (List.mem_singleton.mpr rfl)
  have hbin : b ∈ (findConnectedComponent (buildAdjacency collabs) a []).2 := by
    rw [hFC]
    exact hclosure a (hq2 a (List.mem_singleton.mpr rfl)) b hbadj
  have hcin : c ∈ (findConnectedComponent (buildAdjacency collabs) a []).2 := by
    rw [hFC]
    exact hclosure a (hq2 a (List.mem_singleton.mpr rfl)) c hcadj
  have hsound := fcc_sound (buildAdjacency collabs) [a, b, c] hSclosed
    (bfsFuel (buildAdjacency collabs)) [a] [] []
    (fun x hx => by rw [List.mem_singleton] at hx; subst hx; exact List.mem_cons_self _ _)
    (fun x hx => absurd hx (List.not_mem_nil x))
  have hnd : (findConnectedComponent (buildAdjacency collabs) a []).1.Nodup := by
    rw [hFC]
    exact fcc_nodup _ _ _ _ _ List.nodup_nil
  have hmemchar : ∀ x, x ∈ (findConnectedComponent (buildAdjacency collabs) a []).1 ↔
      (x = a ∨ x = b ∨ x = c) := by
    intro x
    constructor
    · intro hx
      rw [hFC] at hx
      simpa using hsound x hx
    · intro hx
      rw [hr12]
      rcases hx with rfl | rfl | rfl
      · exact hain
      · exact hbin
      · exact hcin
  have habcnd : ([a, b, c] : List Str).Nodup := by simp [hab, hac, hbc]
  have hperm : (findConnectedComponent (buildAdjacency collabs) a []).1.Perm [a, b, c] :=
    (List.perm_ext_iff_of_nodup hnd habcnd).mpr (fun x => by rw [hmemchar x]; simp)
  have hlen3 : (findConnectedComponent (buildAdjacency collabs) a []).1.length = 3 := by
    rw [hperm.length_eq]
    rfl
  cases authors with
  | nil => simp at hnames
  | cons A rest1 =>
  cases rest1 with
  | nil => simp at hnames
  | cons B rest2 =>
  cases rest2 with
  | nil => simp at hnames
  | cons C rest3 =>
  cases rest3 with
  | cons D rest4 => simp at hnames
  | nil =>
  simp only [List.map_cons, List.map_nil, List.cons.injEq, and_true] at hnames
  obtain ⟨hA, hB, hC⟩ := hnames
  have haux : detectAuthorCommunitiesAux [A, B, C] (buildAdjacency collabs) collabs
        [A, B, C] [] 0
      = [mkCommunity [A, B, C] (buildAdjacency collabs) collabs
          (findConnectedComponent (buildAdjacency collabs) a []).1 1] := by
    rw [detectAuthorCommunitiesAux_cons, hA]
    rw [if_neg (List.not_mem_nil a)]
    rw [if_pos (by rw [hlen3])]
    rw [detectAuthorCommunitiesAux_cons, hB]
    rw [if_pos (by rw [← hr12]; exact (hmemchar b).mpr (Or.inr (Or.inl rfl)))]
    rw [detectAuthorCommunitiesAux_cons, hC]
    rw [if_pos (by rw [← hr12]; exact (hmemchar c).mpr (Or.inr (Or.inr rfl)))]
    rw [detectAuthorCommunitiesAux_nil]
  have hdetect : detectAuthorCommunities [A, B, C] collabs
      = [mkCommunity [A, B, C] (buildAdjacency collabs) collabs
          (findConnectedComponent (buildAdjacency collabs) a []).1 1] := by
    have h0 : detectAuthorCommunities [A, B, C] collabs
        = stableInsertionSort (fun x y => y.paperCount ≤ x.paperCount)
          (detectAuthorCommunitiesAux [A, B, C] (buildAdjacency collabs) collabs
            [A, B, C] [] 0) := rfl
    rw [h0, haux]
    rfl
  refine ⟨⟨mkCommunity [A, B, C] (buildAdjacency collabs) collabs
      (findConnectedComponent (buildAdjacency collabs) a []).1 1, hdetect, hlen3, hmemchar, ?_⟩,
    ?_⟩
  · show calculateCommunityCollaborationStrength
      (findConnectedComponent (buildAdjacency collabs) a []).1 collabs = 1
    have hfiltereq : collabs.filter (fun e =>
        e.source ∈ (findConnectedComponent (buildAdjacency collabs) a []).1 ∧
        e.target ∈ (findConnectedComponent (buildAdjacency collabs) a []).1) = collabs := by
      rw [List.filter_eq_self]
      intro e he
      have h1 := hendpoints e he
      have hsrc : e.source ∈ (findConnectedComponent (buildAdjacency collabs) a []).1 := by
        rw [hmemchar]
        exact h1.1
      have htgt : e.target ∈ (findConnectedComponent (buildAdjacency collabs) a []).1 := by
        rw [hmemchar]
        exact h1.2
      simp [hsrc, htgt]
    simp only [calculateCommunityCollaborationStrength]
    rw [hfiltereq, hlen, hlen3]
    norm_num
  · intro authors2 collabs2 comm2 h2
    have h0 : detectAuthorCommunities authors2 collabs2
        = stableInsertionSort (fun x y => y.paperCount ≤ x.paperCount)
          (detectAuthorCommunitiesAux authors2 (buildAdjacency collabs2) collabs2
            authors2 [] 0) := rfl
    rw [h0] at h2
    exact detectAuthorCommunitiesAux_min_size authors2 (buildAdjacency collabs2) collabs2
      authors2 [] 0 comm2 ((mem_stableInsertionSort _ comm2 _).mp h2)

end C7

instance (e : CollaborationEdge) (x y : Str) : Decidable (AuthorAnalysis.connects e x y) := by
  unfold AuthorAnalysis.connects
  infer_instance

/-- A minimal author profile used to instantiate the triangle scenario. -/
def c7Profile (n : Str) : AuthorAnalysis.AuthorProfile :=
  { id := n, name := n, cleanName := n, paperCount := 0, papers := [], collaborators := [],
    primaryTopics := [], influence := 0, firstPublication := none, lastPublication := none,
    yearSpan := 0, averagePapersPerYear := 0 }

/-- The three collaboration edges of a concrete triangle. -/
def c7Edges : List CollaborationEdge :=
  [⟨str "ana", str "bob", 1⟩, ⟨str "ana", str "cat", 1⟩, ⟨str "bob", str "cat", 1⟩]

/-- Witness for C7 on a concrete triangle of three authors. -/
theorem c7_triangle_single_community_witness :
    (∃ comm, AuthorAnalysis.detectAuthorCommunities
        [c7Profile (str "ana"), c7Profile (str "bob"), c7Profile (str "cat")] c7Edges
          = [comm] ∧
      comm.members.length = 3 ∧
      (∀ x, x ∈ comm.members ↔ (x = str "ana" ∨ x = str "bob" ∨ x = str "cat")) ∧
      comm.collaborationStrength = 1) ∧
    (∀ (authors2 : List AuthorAnalysis.AuthorProfile) (collabs2 : List CollaborationEdge),
      ∀ comm2 ∈ AuthorAnalysis.detectAuthorCommunities authors2 collabs2,
        3 ≤ comm2.members.length) :=
  c7_triangle_single_community
    [c7Profile (str "ana"), c7Profile (str "bob"), c7Profile (str "cat")] c7Edges
    (str "ana") (str "bob") (str "cat") rfl (by decide) (by decide) (by decide)
    (by decide) (by decide) (by decide) (by decide) rfl
